import Mathlib

/-!
Verification of the voters_project repository's core pipeline against its
natural-language specification.

The development shallowly embeds, in Lean, the parts of the Python source
that the claims concern:

* `Docai.*`     — the Spatial Aggregator `group_entities_to_cards` of
                  `docai_json_to_excel.py`;
* `App.*`       — the Record Parser `parse_voter_card_standalone`, the Page
                  Segmenter `extract_cards_from_single_pdf`, the worker
                  `ocr_single_card`, the `CheckpointManager`, and the phase
                  pipeline of `voter_counter_app_fast_5.0.py`;
* `Headless.*`  — the sequential phase-1 of `cloud/process_batch_headless.py`.

Machine reals (normalized page coordinates, brightness averages, elapsed
seconds) are embedded as exact rationals `ℚ`; Python strings as `String`;
Python dicts as association lists that preserve insertion order and update
in place, as Python dicts do.
-/

namespace Util

/-- Python whitespace characters (ASCII subset of `\s` / `str.strip`). -/
def isPyWs (c : Char) : Bool :=
  c = ' ' || c = '\t' || c = '\n' || c = '\r' || c = '\x0b' || c = '\x0c'

/-- `needle in hay` on character lists: some suffix of `hay` starts with `needle`. -/
def listHasSub (hay needle : List Char) : Bool :=
  needle.isPrefixOf hay ||
    match hay with
    | [] => false
    | _ :: t => listHasSub t needle

/-- Python's substring test `needle in hay`. -/
def strHasSub (hay needle : String) : Bool :=
  listHasSub hay.data needle.data

/-- Python `str.strip()` (ASCII whitespace). -/
def pyStripList (cs : List Char) : List Char :=
  ((cs.dropWhile isPyWs).reverse.dropWhile isPyWs).reverse

/-- Python `str.strip()` on strings. -/
def pyStrip (s : String) : String :=
  ⟨pyStripList s.data⟩

/-- ASCII decimal digit test (`\d` restricted to ASCII, as in the source's data). -/
def isDigitCh (c : Char) : Bool :=
  '0' ≤ c && c ≤ '9'

/-- The decimal digit character for `d < 10` (used to model Python `str(n)`). -/
def digitCh (d : ℕ) : Char :=
  match d with
  | 0 => '0' | 1 => '1' | 2 => '2' | 3 => '3' | 4 => '4'
  | 5 => '5' | 6 => '6' | 7 => '7' | 8 => '8' | _ => '9'

/-- Numeric value of a digit character. -/
def valCh (c : Char) : ℕ :=
  c.toNat - 48

/-- Decimal digit list of `n`, most significant first; `fuel` bounds recursion
depth and is always called with `fuel > number of digits`. -/
def decDigits (fuel n : ℕ) : List Char :=
  match fuel with
  | 0 => []
  | f + 1 => if n < 10 then [digitCh n] else decDigits f (n / 10) ++ [digitCh (n % 10)]

/-- Python `str(n)` for a natural number. -/
def natToDec (n : ℕ) : String :=
  ⟨decDigits (n + 1) n⟩

/-- Numeric value of a digit-character list (the accumulator loop of `int(s)`). -/
def decVal (cs : List Char) : ℕ :=
  cs.foldl (fun acc c => acc * 10 + valCh c) 0

/-- Python `int(s)` restricted to plain digit strings, `none` when `int` would raise. -/
def decToNat (s : String) : Option ℕ :=
  if s.data ≠ [] ∧ s.data.all isDigitCh then some (decVal s.data) else none

/-- First maximal run of digits in a character list (leftmost match of `(\d+)`). -/
def firstDigitRun : List Char → Option (List Char)
  | [] => none
  | c :: cs => if isDigitCh c then some (c :: cs.takeWhile isDigitCh) else firstDigitRun cs

/-- `re.search(r'(\d+)', s)` followed by `int(group(1))`. -/
def firstNat (s : String) : Option ℕ :=
  (firstDigitRun s.data).map decVal

/-- Everything after the first `':'`: Python `line.split(':', 1)[-1]`. -/
def afterColonList (cs : List Char) : List Char :=
  match cs.dropWhile (fun c => c ≠ ':') with
  | [] => cs
  | _ :: t => t

/-- `line.split(':', 1)[-1]` on strings. -/
def afterColon (s : String) : String :=
  ⟨afterColonList s.data⟩

/-- Python `str.lower()` on one character (ASCII, which covers the entity
type names the source compares). -/
def pyLowerCh (c : Char) : Char :=
  if 'A' ≤ c ∧ c ≤ 'Z' then Char.ofNat (c.toNat + 32) else c

/-- Python `str.lower()`. -/
def pyLower (s : String) : String :=
  ⟨s.data.map pyLowerCh⟩

/-- Python `str.upper()` on one character (ASCII; identity on Tamil). -/
def pyUpperCh (c : Char) : Char :=
  if 'a' ≤ c ∧ c ≤ 'z' then Char.ofNat (c.toNat - 32) else c

/-- Python `str.upper()`. -/
def pyUpper (s : String) : String :=
  ⟨s.data.map pyUpperCh⟩

/-- Ordered-dict update: replace the value at the first occurrence of the key
(keeping its position, as Python dict assignment does), else append. -/
def dictSet {α : Type} (k : ℕ) (v : α) : List (ℕ × α) → List (ℕ × α)
  | [] => [(k, v)]
  | (k₁, v₁) :: rest => if k₁ = k then (k, v) :: rest else (k₁, v₁) :: dictSet k v rest

/-- Ordered-dict lookup (first occurrence). -/
def dictGet {α : Type} (k : ℕ) : List (ℕ × α) → Option α
  | [] => none
  | (k₁, v₁) :: rest => if k₁ = k then some v₁ else dictGet k rest

end Util

namespace Util

theorem valCh_digitCh {d : ℕ} (h : d < 10) : valCh (digitCh d) = d := by
  interval_cases d <;> decide

theorem isDigitCh_digitCh {d : ℕ} (h : d < 10) : isDigitCh (digitCh d) = true := by
  interval_cases d <;> decide

theorem decDigits_all_digits : ∀ fuel n, (decDigits fuel n).all isDigitCh = true := by
  intro fuel
  induction fuel with
  | zero => intro n; rfl
  | succ f ih =>
    intro n
    rw [decDigits]
    by_cases h : n < 10
    · simp [h, isDigitCh_digitCh h]
    · simp only [h, if_false, List.all_append, ih (n / 10), Bool.true_and]
      simp [isDigitCh_digitCh (Nat.mod_lt n (by norm_num))]

theorem decDigits_ne_nil : ∀ fuel n, fuel ≠ 0 → decDigits fuel n ≠ [] := by
  intro fuel n h
  match fuel with
  | 0 => exact absurd rfl h
  | f + 1 =>
    rw [decDigits]
    by_cases h10 : n < 10
    · simp [h10]
    · simp [h10]

theorem decVal_decDigits : ∀ fuel n, n < 10 ^ fuel → decVal (decDigits fuel n) = n := by
  intro fuel
  induction fuel with
  | zero =>
    intro n h
    simp only [pow_zero, Nat.lt_one_iff] at h
    subst h; rfl
  | succ f ih =>
    intro n h
    rw [decDigits]
    by_cases h10 : n < 10
    · simp only [h10, if_true, decVal, List.foldl_cons, List.foldl_nil]
      rw [valCh_digitCh h10]; omega
    · simp only [h10, if_false, decVal, List.foldl_append, List.foldl_cons, List.foldl_nil]
      have hdiv : n / 10 < 10 ^ f := by
        rw [Nat.div_lt_iff_lt_mul (by norm_num)]
        calc n < 10 ^ (f + 1) := h
        _ = 10 ^ f * 10 := by ring
      have := ih (n / 10) hdiv
      rw [decVal] at this
      rw [this, valCh_digitCh (Nat.mod_lt n (by norm_num))]
      omega

theorem lt_ten_pow (n : ℕ) : n < 10 ^ (n + 1) := by
  calc n < 2 ^ n := Nat.lt_two_pow n
  _ ≤ 10 ^ n := Nat.pow_le_pow_left (by norm_num) n
  _ ≤ 10 ^ (n + 1) := Nat.pow_le_pow_right (by norm_num) (by omega)

/-- `int(str(n)) = n`: the decimal codec used for checkpoint keys round-trips. -/
theorem decToNat_natToDec (n : ℕ) : decToNat (natToDec n) = some n := by
  rw [decToNat, natToDec]
  have h1 : decDigits (n + 1) n ≠ [] := decDigits_ne_nil (n + 1) n (by omega)
  have h2 : (decDigits (n + 1) n).all isDigitCh = true := decDigits_all_digits (n + 1) n
  simp only [String.data]
  rw [if_pos ⟨h1, h2⟩, decVal_decDigits (n + 1) n (lt_ten_pow n)]

theorem dictGet_dictSet_self {α : Type} (k : ℕ) (v : α) (l : List (ℕ × α)) :
    dictGet k (dictSet k v l) = some v := by
  induction l with
  | nil => simp [dictSet, dictGet]
  | cons p rest ih =>
    rw [dictSet]
    by_cases h : p.1 = k
    · simp [h, dictGet]
    · simp only [h, if_false, dictGet]
      simp [h, ih]

theorem dictGet_dictSet_ne {α : Type} (k k₂ : ℕ) (v : α) (l : List (ℕ × α)) (h : k₂ ≠ k) :
    dictGet k₂ (dictSet k v l) = dictGet k₂ l := by
  induction l with
  | nil =>
    simp only [dictSet, dictGet]
    rw [if_neg (by omega)]
  | cons p rest ih =>
    rw [dictSet]
    by_cases hp : p.1 = k
    · subst hp
      simp only [if_pos rfl, dictGet]
      rw [if_neg (by omega), if_neg (by omega)]
    · simp only [if_neg hp, dictGet]
      by_cases hp2 : p.1 = k₂
      · simp [hp2]
      · simp only [hp2, if_false, ih]

end Util

namespace Docai

open Util

/-- A Document AI entity: semantic type, recognized text, and the page /
normalized top-left position read by `get_entity_position`. -/
structure Entity where
  etype : String
  mentionText : String
  page : ℕ
  x : ℚ
  y : ℚ
deriving DecidableEq, Repr

/-- Column bucket of a normalized x position (`group_entities_to_cards`,
`docai_json_to_excel.py` lines 66-72). -/
def colOf (x : ℚ) : ℕ :=
  if x < 33 / 100 then 0 else if x < 66 / 100 then 1 else 2

/-- `entity.get('type','').lower() == 'voterid'`. -/
def isVoterId (e : Entity) : Bool :=
  pyLower e.etype == "voterid"

/-- One card slot seeded from a voterID anchor. -/
structure Card where
  serial_no : String
  voter_id : String
  name : String
  relation_name : String
  house_no : String
  age : String
  gender : String
  page : ℕ
  col : ℕ
  yStart : ℚ
  yEnd : ℚ
deriving DecidableEq, Repr

/-- The card slot created for one voterID entity (lines 79-93): fields empty,
vertical extent `[y, y + 0.10)`. -/
def mkCard (e : Entity) : Card :=
  { serial_no := "", voter_id := pyUpper (pyStrip e.mentionText), name := ""
    relation_name := "", house_no := "", age := "", gender := ""
    page := e.page, col := colOf e.x, yStart := e.y, yEnd := e.y + 10 / 100 }

/-- `cards.sort(key=lambda c: (c['page'], c['col'], c['_y_start']))`:
lexicographic comparison of the Python key tuple. -/
def cardLE (a b : Card) : Bool :=
  decide (a.page < b.page ∨ (a.page = b.page ∧
    (a.col < b.col ∨ (a.col = b.col ∧ a.yStart ≤ b.yStart))))

/-- Tighten each card's upper extent to the start of the next card sharing its
(page, column), scanning later cards in sorted order (lines 99-103). -/
def tighten : List Card → List Card
  | [] => []
  | c :: rest =>
    (match rest.find? (fun d => d.page = c.page ∧ d.col = c.col) with
     | some d => { c with yEnd := d.yStart }
     | none => c) :: tighten rest

/-- The seeded, sorted, tightened card list for an entity list (lines 74-103). -/
def aggCards (entities : List Entity) : List Card :=
  tighten (((entities.filter isVoterId).map mkCard).mergeSort cardLE)

/-- Mention-text cleanup (lines 114-118): strip, then remove one trailing and
one leading dash together with adjacent whitespace. -/
def cleanMention (s : String) : String :=
  let t := pyStripList s.data
  let t :=
    match t.getLast? with
    | some c => if c = '-' ∨ c = '–' then (t.dropLast.reverse.dropWhile isPyWs).reverse else t
    | none => t
  let t :=
    match t with
    | c :: cs => if c = '-' ∨ c = '–' then cs.dropWhile isPyWs else t
    | [] => t
  ⟨t⟩

/-- The card-selection loop (lines 120-128): scan the sorted cards; break at
the first card on the fragment's (page, column) whose extent contains `y`;
otherwise keep overwriting the candidate with every card whose extent start is
within the 0.12 tolerance, without stopping the scan. Returns the index of the
selected card. -/
def scanCards (p c : ℕ) (y : ℚ) : ℕ → List Card → Option ℕ → Option ℕ
  | _, [], best => best
  | i, card :: rest, best =>
    if card.page = p ∧ card.col = c then
      if card.yStart ≤ y ∧ y < card.yEnd then some i
      else if |y - card.yStart| < 12 / 100 then scanCards p c y (i + 1) rest (some i)
      else scanCards p c y (i + 1) rest best
    else scanCards p c y (i + 1) rest best

/-- Python `min(..., key=...)`: first element attaining the minimal key. -/
def minIdx : ℕ → ℚ → List (ℕ × ℚ) → ℕ
  | bi, _, [] => bi
  | bi, bv, (i, v) :: rest => if v < bv then minIdx i v rest else minIdx bi bv rest

/-- The nearest-card fallback (lines 130-134): among cards on the same
(page, column), the first minimizing `|yStart − y|`. -/
def fallbackIdx (p c : ℕ) (y : ℚ) (cards : List Card) : Option ℕ :=
  match (cards.enum.filter fun ic => ic.2.page = p ∧ ic.2.col = c).map
      (fun ic => (ic.1, |ic.2.yStart - y|)) with
  | [] => none
  | (i, v) :: rest => some (minIdx i v rest)

/-- Full card selection for one non-anchor entity: scan loop, then fallback. -/
def findBestCard (cards : List Card) (p c : ℕ) (y : ℚ) : Option ℕ :=
  match scanCards p c y 0 cards none with
  | some i => some i
  | none => fallbackIdx p c y cards

/-- Writing one entity's cleaned text into the selected card (lines 136-155):
typed fields overwrite; an age is accepted only when its first number lies in
18–120; gender tests the female keyword before the male one. -/
def applyField (card : Card) (t : String) (txt : String) : Card :=
  if t = "sno" then { card with serial_no := txt }
  else if t = "name" then { card with name := txt }
  else if t = "relativename" then { card with relation_name := txt }
  else if t = "houseno" then { card with house_no := txt }
  else if t = "age" then
    match firstNat txt with
    | some a => if 18 ≤ a ∧ a ≤ 120 then { card with age := natToDec a } else card
    | none => card
  else if t = "sex" then
    if strHasSub txt "பெண்" || strHasSub txt "பெண" then { card with gender := "Female" }
    else if strHasSub txt "ஆண்" || strHasSub txt "ஆண" then { card with gender := "Male" }
    else card
  else card

/-- Assignment of one non-anchor entity to a card (lines 106-155). -/
def assignEntity (cards : List Card) (e : Entity) : List Card :=
  if isVoterId e then cards
  else
    match findBestCard cards e.page (colOf e.x) e.y with
    | none => cards
    | some i =>
      match cards.get? i with
      | some card => cards.set i (applyField card (pyLower e.etype) (cleanMention e.mentionText))
      | none => cards

/-- `group_entities_to_cards` (`docai_json_to_excel.py` lines 55-157). -/
def group_entities_to_cards (entities : List Entity) : List Card :=
  entities.foldl assignEntity (aggCards entities)

end Docai

namespace App

open Util

/-- Case-insensitive literal prefix match; returns the rest of the input. -/
def ciPre : List Char → List Char → Option (List Char)
  | [], cs => some cs
  | _ :: _, [] => none
  | p :: ps, c :: cs => if c.toLower = p then ciPre ps cs else none

/-- One match attempt of `\s*Photo\s*is\s*` (case-insensitive) at the head of
the input; returns the number of characters consumed. -/
def matchPhotoIs (cs : List Char) : Option ℕ :=
  let r1 := cs.dropWhile isPyWs
  match ciPre ['p', 'h', 'o', 't', 'o'] r1 with
  | none => none
  | some r2 =>
    match ciPre ['i', 's'] (r2.dropWhile isPyWs) with
    | none => none
    | some r4 => some (cs.length - (r4.dropWhile isPyWs).length)

/-- One match attempt of `\s*available\s*` (case-insensitive) at the head. -/
def matchAvailable (cs : List Char) : Option ℕ :=
  let r1 := cs.dropWhile isPyWs
  match ciPre ['a', 'v', 'a', 'i', 'l', 'a', 'b', 'l', 'e'] r1 with
  | none => none
  | some r2 => some (cs.length - (r2.dropWhile isPyWs).length)

/-- `re.sub(pattern, ' ', text)`: left-to-right non-overlapping replacement;
every successful match consumes at least one character, so fuel equal to the
input length runs the scan to completion. -/
def replaceScanF (m : List Char → Option ℕ) : ℕ → List Char → List Char
  | 0, cs => cs
  | _ + 1, [] => []
  | f + 1, c :: cs =>
    match m (c :: cs) with
    | some k => ' ' :: replaceScanF m f (cs.drop (k - 1))
    | none => c :: replaceScanF m f cs

/-- The character class `[\s\-–.,:]` of the boilerplate-strip pattern. -/
def isJunk (c : Char) : Bool :=
  isPyWs c || c = '-' || c = '–' || c = '.' || c = ',' || c = ':'

/-- `re.sub(r'\s+', ' ', text)`: collapse whitespace runs to single spaces. -/
def collapseWsF : ℕ → List Char → List Char
  | 0, cs => cs
  | _ + 1, [] => []
  | f + 1, c :: cs =>
    if isPyWs c then ' ' :: collapseWsF f (cs.dropWhile isPyWs) else c :: collapseWsF f cs

/-- `clean_ocr_text_standalone` (`voter_counter_app_fast_5.0.py` lines 323-331). -/
def clean_ocr_text_standalone (s : String) : String :=
  if s = "" then ""
  else
    let t1 := replaceScanF matchPhotoIs s.data.length s.data
    let t2 := replaceScanF matchAvailable t1.length t1
    let t3 := ((t2.dropWhile isJunk).reverse.dropWhile isJunk).reverse
    let t4 := collapseWsF t3.length t3
    pyStrip ⟨t4⟩

/-- `re.search(r'வயது\s*:\s*(\d+)', line)`: leftmost occurrence of the age
keyword followed by an optionally spaced colon and a digit run; returns the
digit group. -/
def ageScan : List Char → Option (List Char)
  | [] => none
  | c :: cs =>
    (if "வயது".data.isPrefixOf (c :: cs) then
      let r2 := ((c :: cs).drop "வயது".data.length).dropWhile isPyWs
      match r2 with
      | ':' :: r3 =>
        let ds := (r3.dropWhile isPyWs).takeWhile isDigitCh
        if ds.isEmpty then none else some ds
      | _ => none
    else none).orElse fun _ => ageScan cs

/-- `^(\d{1,4})\s*$`, else `^(\d{1,4})\s+\S` with the `< 2000` bound, on an
already stripped line (lines 248-258). -/
def serialMatch (line : String) : Option String :=
  let ds := line.data.takeWhile isDigitCh
  let rest := line.data.drop ds.length
  if 1 ≤ ds.length ∧ ds.length ≤ 4 then
    if rest.all isPyWs then some ⟨ds⟩
    else
      match rest with
      | c :: _ =>
        if isPyWs c ∧ (rest.dropWhile isPyWs) ≠ [] then
          if decVal ds < 2000 then some ⟨ds⟩ else none
        else none
      | [] => none
  else none

/-- The structured field map extracted from one card's OCR text. -/
structure VoterData where
  serial_no : String
  voter_id : String
  name : String
  relation_name : String
  relation_type : String
  house_no : String
  age : String
  gender : String
deriving DecidableEq, Repr

/-- The all-empty field map (the `data` dict literal of the source). -/
def emptyData : VoterData :=
  ⟨"", "", "", "", "", "", "", ""⟩

/-- Python `'\n'.split` of the full text. -/
def splitOnCh (sep : Char) : List Char → List (List Char)
  | [] => [[]]
  | c :: rest =>
    if c = sep then [] :: splitOnCh sep rest
    else
      match splitOnCh sep rest with
      | [] => [[c]]
      | h :: t => (c :: h) :: t

/-- The body of the per-line loop of `parse_voter_card_standalone`
(lines 243-318), applied to one raw line. -/
def procLine (d : VoterData) (rawLine : String) : VoterData :=
  let line := pyStrip rawLine
  if line = "" then d
  else
    let d :=
      if d.serial_no = "" then
        match serialMatch line with
        | some s => { d with serial_no := s }
        | none => d
      else d
    let d :=
      if strHasSub line "பெயர்" && strHasSub line ":" &&
          !strHasSub line "தந்தை" && !strHasSub line "கணவர்" then
        let np := clean_ocr_text_standalone (afterColon line)
        if np ≠ "" ∧ d.name = "" then { d with name := np } else d
      else d
    let d :=
      if (strHasSub line "தந்தை" || strHasSub line "தந்தையின்") &&
          strHasSub line "பெயர்" && strHasSub line ":" then
        let rp := clean_ocr_text_standalone (afterColon line)
        if rp ≠ "" ∧ d.relation_name = "" then
          { d with relation_name := rp, relation_type := "Father" }
        else d
      else d
    let d :=
      if (strHasSub line "கணவர்" || strHasSub line "கணவரின்") && strHasSub line ":" then
        let rp := clean_ocr_text_standalone (afterColon line)
        if rp ≠ "" ∧ d.relation_name = "" then
          { d with relation_name := rp, relation_type := "Husband" }
        else d
      else d
    let d :=
      if (strHasSub line "தாய்" || strHasSub line "தாயின்") &&
          strHasSub line "பெயர்" && strHasSub line ":" then
        let rp := clean_ocr_text_standalone (afterColon line)
        if rp ≠ "" ∧ d.relation_name = "" then
          { d with relation_name := rp, relation_type := "Mother" }
        else d
      else d
    let d :=
      if (strHasSub line "இதரர்" || strHasSub line "இதரரின்") &&
          strHasSub line "பெயர்" && strHasSub line ":" then
        let rp := clean_ocr_text_standalone (afterColon line)
        if rp ≠ "" ∧ d.relation_name = "" then
          { d with relation_name := rp, relation_type := "Other" }
        else d
      else d
    let d :=
      if (strHasSub line "வீட்டு" || strHasSub line "ட்டு") &&
          strHasSub line "எண்" && strHasSub line ":" then
        let hp := clean_ocr_text_standalone (afterColon line)
        if hp ≠ "" ∧ d.house_no = "" then { d with house_no := hp } else d
      else d
    let d :=
      if strHasSub line "வயது" && strHasSub line ":" then
        match ageScan line.data with
        | some ds => { d with age := ⟨ds⟩ }
        | none => d
      else d
    let d :=
      if strHasSub line "பாலினம்" then
        if strHasSub line "ஆண்" then { d with gender := "Male" }
        else if strHasSub line "பெண்" then { d with gender := "Female" }
        else d
      else d
    d

/-- `parse_voter_card_standalone` (lines 206-320).  The whole-text voter-id
regex scan (the `voter_id_patterns` loop, lines 221-239) is abstracted as the
function argument `extractVid`; no claim concerns the identifier patterns. -/
def parse_voter_card_standalone (extractVid : String → String) (text : String) : VoterData :=
  ((splitOnCh '\n' text.data).map fun l => (⟨l⟩ : String)).foldl procLine
    { emptyData with voter_id := extractVid text }

end App

namespace Docai

/-- A card with all text fields empty (for concrete instances). -/
def blankCard : Card :=
  ⟨"", "", "", "", "", "", "", 0, 0, 0, 0⟩

/-- Index of the last card in the list on (page, column) whose extent start is
within the 0.12 tolerance of `y` (the candidate the scan loop is left with). -/
def lastTol (p c : ℕ) (y : ℚ) : List Card → Option ℕ
  | [] => none
  | card :: rest =>
    match lastTol p c y rest with
    | some j => some (j + 1)
    | none =>
      if card.page = p ∧ card.col = c ∧ |y - card.yStart| < 12 / 100 then some 0 else none

theorem scanCards_no_contain (p c : ℕ) (y : ℚ) :
    ∀ (cards : List Card) (i₀ : ℕ) (best : Option ℕ),
      (∀ card ∈ cards, card.page = p ∧ card.col = c →
        ¬(card.yStart ≤ y ∧ y < card.yEnd)) →
      scanCards p c y i₀ cards best =
        match lastTol p c y cards with
        | some j => some (i₀ + j)
        | none => best := by
  intro cards
  induction cards with
  | nil => intro i₀ best _; rfl
  | cons card rest ih =>
    intro i₀ best hnc
    have hhead := hnc card (List.mem_cons_self card rest)
    have htail : ∀ card₂ ∈ rest, card₂.page = p ∧ card₂.col = c →
        ¬(card₂.yStart ≤ y ∧ y < card₂.yEnd) :=
      fun card₂ hm => hnc card₂ (List.mem_cons_of_mem card hm)
    rw [scanCards, lastTol]
    by_cases hm : card.page = p ∧ card.col = c
    · rw [if_pos hm, if_neg (hhead hm)]
      by_cases ht : |y - card.yStart| < 12 / 100
      · rw [if_pos ht, ih (i₀ + 1) (some i₀) htail]
        rcases h : lastTol p c y rest with _ | j
        · rw [if_pos ⟨hm.1, hm.2, ht⟩]
          simp
        · simp only [Option.some.injEq]
          omega
      · rw [if_neg ht, ih (i₀ + 1) best htail]
        rcases h : lastTol p c y rest with _ | j
        · rw [if_neg (fun hh => ht hh.2.2)]
        · simp only [Option.some.injEq]
          omega
    · rw [if_neg hm, ih (i₀ + 1) best htail]
      rcases h : lastTol p c y rest with _ | j
      · rw [if_neg (fun hh => hm ⟨hh.1, hh.2.1⟩)]
      · simp only [Option.some.injEq]
        omega

theorem lastTol_none_spec (p c : ℕ) (y : ℚ) :
    ∀ cards : List Card, lastTol p c y cards = none →
      ∀ k card, cards.get? k = some card →
        ¬(card.page = p ∧ card.col = c ∧ |y - card.yStart| < 12 / 100) := by
  intro cards
  induction cards with
  | nil => intro _ k card hk; simp at hk
  | cons card₀ rest ih =>
    intro hnone k card hk
    rw [lastTol] at hnone
    rcases h : lastTol p c y rest with _ | j
    · rw [h] at hnone
      match k, hk with
      | 0, hk =>
        have : card₀ = card := by simpa using hk
        subst this
        intro hc
        rw [if_pos hc] at hnone
        exact Option.noConfusion hnone
      | k + 1, hk => exact ih h k card (by simpa using hk)
    · rw [h] at hnone
      exact Option.noConfusion hnone

theorem lastTol_some_spec (p c : ℕ) (y : ℚ) :
    ∀ (cards : List Card) (j : ℕ), lastTol p c y cards = some j →
      (∃ card, cards.get? j = some card ∧
        card.page = p ∧ card.col = c ∧ |y - card.yStart| < 12 / 100) ∧
      ∀ k card₂, j < k → cards.get? k = some card₂ →
        ¬(card₂.page = p ∧ card₂.col = c ∧ |y - card₂.yStart| < 12 / 100) := by
  intro cards
  induction cards with
  | nil => intro j hj; exact Option.noConfusion hj
  | cons card₀ rest ih =>
    intro j hj
    rw [lastTol] at hj
    rcases h : lastTol p c y rest with _ | j2
    · rw [h] at hj
      by_cases hc : card₀.page = p ∧ card₀.col = c ∧ |y - card₀.yStart| < 12 / 100
      · rw [if_pos hc] at hj
        have hj0 : j = 0 := by simpa using hj.symm
        subst hj0
        refine ⟨⟨card₀, by simp, hc⟩, ?_⟩
        intro k card₂ hk hget
        match k, hget with
        | k + 1, hget => exact lastTol_none_spec p c y rest h k card₂ (by simpa using hget)
      · rw [if_neg hc] at hj
        exact Option.noConfusion hj
    · rw [h] at hj
      have hj2 : j = j2 + 1 := by simpa using hj.symm
      subst hj2
      obtain ⟨⟨card₁, hget₁, hc₁⟩, hmax⟩ := ih j2 h
      refine ⟨⟨card₁, by simpa using hget₁, hc₁⟩, ?_⟩
      intro k card₂ hk hget
      match k, hget with
      | k + 1, hget => exact hmax k card₂ (by omega) (by simpa using hget)

theorem lastTol_isSome_of_mem (p c : ℕ) (y : ℚ) :
    ∀ cards : List Card,
      (∃ card ∈ cards, card.page = p ∧ card.col = c ∧ |y - card.yStart| < 12 / 100) →
      (lastTol p c y cards).isSome := by
  intro cards
  induction cards with
  | nil => rintro ⟨card, hm, _⟩; simp at hm
  | cons card₀ rest ih =>
    rintro ⟨card, hm, hc⟩
    rw [lastTol]
    rcases h : lastTol p c y rest with _ | j
    · rcases List.mem_cons.mp hm with h0 | hr
      · subst h0
        rw [if_pos hc]
        rfl
      · have := ih ⟨card, hr, hc⟩
        rw [h] at this
        simp at this
    · rfl

end Docai

/-- C10: in the Spatial Aggregator's assignment step, when no Record's extent
on the fragment's (page, column) contains its `y` but at least one Record's
extent start lies within the 0.12 tolerance, the fragment is assigned to the
last such Record in list (i.e. (page, column, y)-sorted) order — the tolerance
branch keeps overwriting the candidate without stopping the scan; the
nearest-by-distance fallback is used only when no Record on that (page,
column) is within tolerance. -/
theorem C10_tolerance_overwrite_last (cards : List Docai.Card) (p c : ℕ) (y : ℚ)
    (hnc : ∀ card ∈ cards, card.page = p ∧ card.col = c →
      ¬(card.yStart ≤ y ∧ y < card.yEnd)) :
    ((∃ card ∈ cards, card.page = p ∧ card.col = c ∧ |y - card.yStart| < 12 / 100) →
      ∃ i, Docai.findBestCard cards p c y = some i ∧
        (∃ card, cards.get? i = some card ∧ card.page = p ∧ card.col = c ∧
          |y - card.yStart| < 12 / 100) ∧
        (∀ k card₂, i < k → cards.get? k = some card₂ →
          ¬(card₂.page = p ∧ card₂.col = c ∧ |y - card₂.yStart| < 12 / 100)))
    ∧ ((∀ card ∈ cards, card.page = p ∧ card.col = c → ¬(|y - card.yStart| < 12 / 100)) →
      Docai.findBestCard cards p c y = Docai.fallbackIdx p c y cards) := by
  constructor
  · intro hex
    have hs := Docai.lastTol_isSome_of_mem p c y cards hex
    rcases hj : Docai.lastTol p c y cards with _ | j
    · rw [hj] at hs; simp at hs
    · obtain ⟨hex2, hmax⟩ := Docai.lastTol_some_spec p c y cards j hj
      refine ⟨j, ?_, hex2, hmax⟩
      rw [Docai.findBestCard, Docai.scanCards_no_contain p c y cards 0 none hnc, hj]
      simp
  · intro hnt
    have hnone : Docai.lastTol p c y cards = none := by
      rcases hj : Docai.lastTol p c y cards with _ | j
      · rfl
      · obtain ⟨⟨card, hget, hc1, hc2, hc3⟩, _⟩ := Docai.lastTol_some_spec p c y cards j hj
        exact absurd hc3 (hnt card (List.get?_mem hget) ⟨hc1, hc2⟩)
    rw [Docai.findBestCard, Docai.scanCards_no_contain p c y cards 0 none hnc, hnone]

/-- Concrete cards for the C10 witness: two cards on (page 1, column 0) with
extent starts 0.05 and 0.11, neither containing y = 0, both within tolerance. -/
def c10cards : List Docai.Card :=
  [{ Docai.blankCard with page := 1, col := 0, yStart := 5 / 100, yEnd := 11 / 100 },
   { Docai.blankCard with page := 1, col := 0, yStart := 11 / 100, yEnd := 21 / 100 }]

theorem C10_tolerance_overwrite_last_witness :
    (∀ card ∈ c10cards, card.page = 1 ∧ card.col = 0 →
      ¬(card.yStart ≤ (0 : ℚ) ∧ (0 : ℚ) < card.yEnd)) ∧
    (∃ card ∈ c10cards, card.page = 1 ∧ card.col = 0 ∧ |(0 : ℚ) - card.yStart| < 12 / 100) ∧
    Docai.findBestCard c10cards 1 0 0 = some 1 ∧
    Docai.fallbackIdx 1 0 0 c10cards = some 0 ∧
    (∃ i, Docai.findBestCard c10cards 1 0 0 = some i ∧
      (∃ card, c10cards.get? i = some card ∧ card.page = 1 ∧ card.col = 0 ∧
        |(0 : ℚ) - card.yStart| < 12 / 100) ∧
      (∀ k card₂, i < k → c10cards.get? k = some card₂ →
        ¬(card₂.page = 1 ∧ card₂.col = 0 ∧ |(0 : ℚ) - card₂.yStart| < 12 / 100))) := by
  have hnc : ∀ card ∈ c10cards, card.page = 1 ∧ card.col = 0 →
      ¬(card.yStart ≤ (0 : ℚ) ∧ (0 : ℚ) < card.yEnd) := by
    intro card hm _
    fin_cases hm <;> simp [Docai.blankCard]
  have hex : ∃ card ∈ c10cards, card.page = 1 ∧ card.col = 0 ∧
      |(0 : ℚ) - card.yStart| < 12 / 100 := by
    refine ⟨_, List.mem_cons_self _ _, ?_⟩
    simp [Docai.blankCard, c10cards]
    norm_num [abs_of_nonneg]
  refine ⟨hnc, hex, ?_, ?_, (C10_tolerance_overwrite_last c10cards 1 0 0 hnc).1 hex⟩
  · simp only [Docai.findBestCard, c10cards, Docai.scanCards, Docai.blankCard]
    norm_num [abs_of_nonneg]
  · simp only [Docai.fallbackIdx, c10cards, Docai.minIdx, Docai.blankCard, List.enum,
      List.enumFrom, List.filter, List.map]
    simp only [sub_zero]
    rw [abs_of_nonneg (by norm_num : (0 : ℚ) ≤ 11 / 100),
      abs_of_nonneg (by norm_num : (0 : ℚ) ≤ 5 / 100)]
    norm_num

/-- C4 is false as stated for the Record Parser: `parse_voter_card_standalone`
(lines 307-311) stores any digit run after the age keyword with no bound, so a
recognized value of 17 (or 121) yields a non-empty age field. -/
theorem C4_age_bound_counterexample :
    (App.parse_voter_card_standalone (fun _ => "") "வயது : 17").age = "17" ∧
    (App.parse_voter_card_standalone (fun _ => "") "வயது : 17").age ≠ "" ∧
    (App.parse_voter_card_standalone (fun _ => "") "வயது : 121").age = "121" :=
  ⟨by decide, by decide, by decide⟩

/-- C4 (amended): the 18–120 age bound is enforced by the Spatial Aggregator —
the first number of an age fragment is stored iff it lies in 18..120 and is
never clamped — while the Record Parser's line-based age extraction stores any
recognized digit run without a bound (17 and 121 are accepted there). -/
theorem C4_age_bound_amended :
    (∀ (card : Docai.Card) (txt : String) (a : ℕ), Util.firstNat txt = some a →
      (Docai.applyField card "age" txt).age =
        if 18 ≤ a ∧ a ≤ 120 then Util.natToDec a else card.age) ∧
    (App.parse_voter_card_standalone (fun _ => "") "வயது : 18").age = "18" ∧
    (App.parse_voter_card_standalone (fun _ => "") "வயது : 120").age = "120" ∧
    (App.parse_voter_card_standalone (fun _ => "") "வயது : 17").age = "17" ∧
    (App.parse_voter_card_standalone (fun _ => "") "வயது : 121").age = "121" := by
  refine ⟨?_, by decide, by decide, by decide, by decide⟩
  intro card txt a h
  rw [Docai.applyField, if_neg (by decide), if_neg (by decide), if_neg (by decide),
    if_neg (by decide), if_pos rfl]
  rw [Util.firstNat] at h
  simp only [Util.firstNat, h]
  by_cases hb : 18 ≤ a ∧ a ≤ 120
  · rw [if_pos hb, if_pos hb]
  · rw [if_neg hb, if_neg hb]

theorem C4_age_bound_amended_witness :
    Util.firstNat "17" = some 17 ∧
    (Docai.applyField Docai.blankCard "age" "17").age = "" ∧
    Util.firstNat "45" = some 45 ∧
    (Docai.applyField Docai.blankCard "age" "45").age = "45" := by
  refine ⟨by decide, ?_, by decide, ?_⟩
  · rw [C4_age_bound_amended.1 Docai.blankCard "17" 17 (by decide)]
    decide
  · rw [C4_age_bound_amended.1 Docai.blankCard "45" 45 (by decide)]
    decide

/-- C6 is false as stated for the Record Parser: its gender rule (lines
313-318) tests the male keyword first, so a line containing the gender label
together with both keyword tokens resolves to Male, not Female. -/
theorem C6_gender_priority_counterexample :
    (App.parse_voter_card_standalone (fun _ => "") "பாலினம் : ஆண் பெண்").gender = "Male" ∧
    (App.parse_voter_card_standalone (fun _ => "") "பாலினம் : ஆண் பெண்").gender ≠ "Female" :=
  ⟨by decide, by decide⟩

/-- C6 (amended): gender resolution is deterministic in both components, but
the priority differs: the Spatial Aggregator tests the female keyword first,
so any fragment containing it — in particular one containing both tokens —
resolves to Female, while the Record Parser tests the male keyword first and
resolves a both-token line to Male. -/
theorem C6_gender_priority_amended :
    (∀ (card : Docai.Card) (txt : String),
      (Util.strHasSub txt "பெண்" || Util.strHasSub txt "பெண") = true →
      (Docai.applyField card "sex" txt).gender = "Female") ∧
    (App.parse_voter_card_standalone (fun _ => "") "பாலினம் : ஆண் பெண்").gender = "Male" ∧
    (App.parse_voter_card_standalone (fun _ => "") "பாலினம் : பெண்").gender = "Female" ∧
    (App.parse_voter_card_standalone (fun _ => "") "பாலினம் : ஆண்").gender = "Male" := by
  refine ⟨?_, by decide, by decide, by decide⟩
  intro card txt h
  rw [Docai.applyField, if_neg (by decide), if_neg (by decide), if_neg (by decide),
    if_neg (by decide), if_neg (by decide), if_pos rfl, if_pos h]

theorem C6_gender_priority_amended_witness :
    (Util.strHasSub "ஆண் பெண்" "பெண்" || Util.strHasSub "ஆண் பெண்" "பெண") = true ∧
    (Docai.applyField Docai.blankCard "sex" "ஆண் பெண்").gender = "Female" :=
  ⟨by decide, C6_gender_priority_amended.1 Docai.blankCard "ஆண் பெண்" (by decide)⟩

namespace Docai

/-- The card list the claim predicts for anchors on a single (page, column)
with increasing y: one card per anchor, extent `[y_i, y_(i+1))`, and
`[y_N, y_N + 0.10)` for the last anchor. -/
def chainCards : List Entity → List Card
  | [] => []
  | a :: rest =>
    { mkCard a with
      yEnd := match rest with | b :: _ => b.y | [] => a.y + 10 / 100 } :: chainCards rest

theorem chainCards_length : ∀ l : List Entity, (chainCards l).length = l.length := by
  intro l
  induction l with
  | nil => rfl
  | cons a rest ih => simp [chainCards, ih]

theorem chainCards_get? : ∀ (l : List Entity) (i : ℕ),
    (chainCards l).get? i = (l.get? i).map fun a =>
      { mkCard a with
        yEnd := match l.get? (i + 1) with | some b => b.y | none => a.y + 10 / 100 } := by
  intro l
  induction l with
  | nil => intro i; simp [chainCards]
  | cons a rest ih =>
    intro i
    match i with
    | 0 =>
      simp only [chainCards, List.get?]
      match rest with
      | [] => rfl
      | b :: rest₂ => rfl
    | i + 1 =>
      simp only [chainCards, List.get?]
      exact ih i

/-- On a list of cards all sharing (page, column), the tighten pass sets each
card's upper extent to the next card's start (or leaves the fixed span). -/
theorem tighten_eq_chainCards (p c : ℕ) :
    ∀ anchors : List Entity,
      (∀ a ∈ anchors, a.page = p ∧ colOf a.x = c) →
      tighten (anchors.map mkCard) = chainCards anchors := by
  intro anchors
  induction anchors with
  | nil => intro _; rfl
  | cons a rest ih =>
    intro hall
    have ha := hall a (List.mem_cons_self a rest)
    have htail : ∀ b ∈ rest, b.page = p ∧ colOf b.x = c :=
      fun b hb => hall b (List.mem_cons_of_mem a hb)
    simp only [List.map, tighten, chainCards]
    rw [ih htail]
    congr 1
    match rest with
    | [] => rfl
    | b :: rest₂ =>
      have hb := htail b (List.mem_cons_self b rest₂)
      have hpred : ((mkCard b).page = (mkCard a).page ∧ (mkCard b).col = (mkCard a).col) := by
        simp [mkCard, ha.1, ha.2, hb.1, hb.2]
      simp only [List.map, List.find?, decide_eq_true hpred]
      rfl

/-- Under the C3 hypotheses the seeded cards are already sorted, so the stable
sort leaves them in place and tightening yields the chain of extents. -/
theorem aggCards_eq_chainCards (p c : ℕ) (entities : List Entity)
    (hanc : ∀ e ∈ entities.filter isVoterId, e.page = p ∧ colOf e.x = c)
    (hinc : ((entities.filter isVoterId).map (fun e => e.y)).Chain' (· < ·)) :
    aggCards entities = chainCards (entities.filter isVoterId) := by
  rw [aggCards]
  have hpw_y : (entities.filter isVoterId).Pairwise (fun a b => a.y < b.y) :=
    List.pairwise_map.mp (List.chain'_iff_pairwise.mp hinc)
  have hpw : ((entities.filter isVoterId).map mkCard).Pairwise (fun a b => cardLE a b = true) := by
    rw [List.pairwise_map]
    refine List.Pairwise.imp_of_mem ?_ hpw_y
    intro a b ha hb hy
    have hpa := hanc a ha
    have hpb := hanc b hb
    rw [cardLE, decide_eq_true_eq]
    refine Or.inr ⟨?_, Or.inr ⟨?_, le_of_lt hy⟩⟩
    · show a.page = b.page
      rw [hpa.1, hpb.1]
    · show colOf a.x = colOf b.x
      rw [hpa.2, hpb.2]
  rw [List.mergeSort_of_sorted hpw]
  exact tighten_eq_chainCards p c _ hanc

theorem scanCards_first_contain (p c : ℕ) (y : ℚ) :
    ∀ (cards : List Card) (i i₀ : ℕ) (best : Option ℕ) (card : Card),
      cards.get? i = some card →
      card.page = p ∧ card.col = c →
      card.yStart ≤ y ∧ y < card.yEnd →
      (∀ j cj, j < i → cards.get? j = some cj → cj.page = p ∧ cj.col = c →
        ¬(cj.yStart ≤ y ∧ y < cj.yEnd)) →
      scanCards p c y i₀ cards best = some (i₀ + i) := by
  intro cards
  induction cards with
  | nil => intro i _ _ card hget; simp at hget
  | cons c₀ rest ih =>
    intro i i₀ best card hget hm hc hmin
    match i, hget with
    | 0, hget =>
      have he : c₀ = card := by simpa using hget
      subst he
      rw [scanCards, if_pos hm, if_pos hc]
      simp
    | k + 1, hget =>
      have hget2 : rest.get? k = some card := by simpa using hget
      have hmin2 : ∀ j cj, j < k → rest.get? j = some cj → cj.page = p ∧ cj.col = c →
          ¬(cj.yStart ≤ y ∧ y < cj.yEnd) :=
        fun j cj hj hg hm2 => hmin (j + 1) cj (by omega) (by simpa using hg) hm2
      have hres : ∀ b, scanCards p c y (i₀ + 1) rest b = some ((i₀ + 1) + k) :=
        fun b => ih k (i₀ + 1) b card hget2 hm hc hmin2
      rw [scanCards]
      by_cases hm0 : c₀.page = p ∧ c₀.col = c
      · rw [if_pos hm0, if_neg (hmin 0 c₀ (by omega) (by simp) hm0)]
        by_cases ht : |y - c₀.yStart| < 12 / 100
        · rw [if_pos ht, hres (some i₀)]
          congr 1
          omega
        · rw [if_neg ht, hres best]
          congr 1
          omega
      · rw [if_neg hm0, hres best]
        congr 1
        omega

/-- The geometric fields of a card: everything the assignment scan reads. -/
def cardGeom (card : Card) : ℕ × ℕ × ℚ × ℚ :=
  (card.page, card.col, card.yStart, card.yEnd)

theorem applyField_geom (card : Card) (t txt : String) :
    cardGeom (applyField card t txt) = cardGeom card := by
  rw [applyField]
  repeat' split
  all_goals rfl

theorem set_of_get? {α : Type} : ∀ (l : List α) (i : ℕ) (a : α),
    l.get? i = some a → l.set i a = l := by
  intro l
  induction l with
  | nil => intro i a h; simp at h
  | cons x rest ih =>
    intro i a h
    match i, h with
    | 0, h =>
      have : x = a := by simpa using h
      subst this
      rfl
    | k + 1, h =>
      have := ih k a (by simpa using h)
      simp [List.set, this]

/-- Field assignment never changes any card's geometry, so the selection
function computes the same index at every step of the assignment fold. -/
theorem assignEntity_geom (cs : List Card) (e : Entity) :
    (assignEntity cs e).map cardGeom = cs.map cardGeom := by
  rw [assignEntity]
  split
  · rfl
  · split
    · rfl
    · split
      · next card heq =>
          rw [List.map_set, applyField_geom]
          refine set_of_get? _ _ _ ?_
          rw [List.get?_map, heq]
          rfl
      · rfl

theorem pairwise_y_get? {l : List Entity} (h : l.Pairwise (fun a b => a.y < b.y)) :
    ∀ i j ai aj, i < j → l.get? i = some ai → l.get? j = some aj → ai.y < aj.y := by
  intro i j ai aj hij hi hj
  obtain ⟨hi2, hieq⟩ := List.get?_eq_some.mp hi
  obtain ⟨hj2, hjeq⟩ := List.get?_eq_some.mp hj
  have := List.pairwise_iff_get.mp h ⟨i, hi2⟩ ⟨j, hj2⟩ hij
  rw [hieq, hjeq] at this
  exact this

end Docai

/-- C3: for anchors on a single (page, column) with strictly increasing y
values, the Spatial Aggregator produces exactly one card per anchor, whose
extents are `[y_i, y_(i+1))` and `[y_N, y_N + 0.10)` for the last — the
contiguous non-overlapping chain `chainCards` — and the assignment scan sends
every non-anchor fragment on that (page, column) whose y lies in extent `i` to
card `i`; field assignment never changes card geometry, so this selection is
the one made at every step of the assignment fold. -/
theorem C3_aggregator_partition (entities : List Docai.Entity) (p c : ℕ)
    (hanc : ∀ e ∈ entities.filter Docai.isVoterId, e.page = p ∧ Docai.colOf e.x = c)
    (hinc : ((entities.filter Docai.isVoterId).map (fun e => e.y)).Chain' (· < ·)) :
    Docai.aggCards entities = Docai.chainCards (entities.filter Docai.isVoterId) ∧
    (Docai.aggCards entities).length = (entities.filter Docai.isVoterId).length ∧
    (∀ (e : Docai.Entity), e.page = p → Docai.colOf e.x = c →
      ∀ i card, (Docai.aggCards entities).get? i = some card →
        card.yStart ≤ e.y → e.y < card.yEnd →
        Docai.findBestCard (Docai.aggCards entities) p c e.y = some i) ∧
    (∀ (cs : List Docai.Card) (e₂ : Docai.Entity),
      (Docai.assignEntity cs e₂).map Docai.cardGeom = cs.map Docai.cardGeom) := by
  have hcc := Docai.aggCards_eq_chainCards p c entities hanc hinc
  have hpw_y : (entities.filter Docai.isVoterId).Pairwise (fun a b => a.y < b.y) :=
    List.pairwise_map.mp (List.chain'_iff_pairwise.mp hinc)
  refine ⟨hcc, by rw [hcc, Docai.chainCards_length], ?_, Docai.assignEntity_geom⟩
  intro e hp hcl i card hget h1 h2
  have hget2 := hget
  rw [hcc, Docai.chainCards_get?] at hget2
  rcases hA : (entities.filter Docai.isVoterId).get? i with _ | ai
  · rw [hA] at hget2; exact absurd hget2 (by simp)
  rw [hA] at hget2
  simp only [Option.map] at hget2
  have hcard := Option.some.inj hget2
  have hai := hanc ai (List.get?_mem hA)
  have hpage : card.page = p := by rw [← hcard]; exact hai.1
  have hcol : card.col = c := by rw [← hcard]; exact hai.2
  have hys : card.yStart = ai.y := by rw [← hcard]; rfl
  have hlen : i < (entities.filter Docai.isVoterId).length :=
    (List.get?_eq_some.mp hA).1
  have hmin : ∀ j cj, j < i → (Docai.aggCards entities).get? j = some cj →
      cj.page = p ∧ cj.col = c → ¬(cj.yStart ≤ e.y ∧ e.y < cj.yEnd) := by
    intro j cj hj hgj _
    rw [hcc, Docai.chainCards_get?] at hgj
    rcases hAj : (entities.filter Docai.isVoterId).get? j with _ | aj
    · rw [hAj] at hgj; exact absurd hgj (by simp)
    rw [hAj] at hgj
    simp only [Option.map_some] at hgj
    have hj1 : j + 1 < (entities.filter Docai.isVoterId).length := by omega
    rcases hAj1 : (entities.filter Docai.isVoterId).get? (j + 1) with _ | aj1
    · exact absurd hAj1 (by rw [List.get?_eq_get hj1]; simp)
    rw [hAj1] at hgj
    simp only [Option.map] at hgj
    have hgj2 := Option.some.inj hgj
    have hEnd : cj.yEnd = aj1.y := by rw [← hgj2]
    have hle : aj1.y ≤ ai.y := by
      rcases Nat.lt_or_ge (j + 1) i with hlt | hge
      · exact le_of_lt (Docai.pairwise_y_get? hpw_y (j + 1) i aj1 ai hlt hAj1 hA)
      · have : j + 1 = i := by omega
        rw [this] at hAj1
        rw [hAj1] at hA
        have : aj1 = ai := by simpa using hA
        rw [this]
    intro hcont
    have : cj.yEnd ≤ e.y := by
      rw [hEnd]
      calc aj1.y ≤ ai.y := hle
      _ = card.yStart := hys.symm
      _ ≤ e.y := h1
    exact absurd hcont.2 (not_lt.mpr this)
  have hscan := Docai.scanCards_first_contain p c e.y (Docai.aggCards entities) i 0 none card
    hget ⟨hpage, hcol⟩ ⟨h1, h2⟩ hmin
  rw [Docai.findBestCard, hscan]
  simp

/-- The spec's end-to-end aggregator scenario: two anchors at y = 0.10 and
y = 0.30 on the same page/column plus a name fragment at y = 0.15. -/
def c3a1 : Docai.Entity := ⟨"voterid", "ABC1234567", 1, 1 / 10, 1 / 10⟩

def c3a2 : Docai.Entity := ⟨"voterid", "XYZ1234567", 1, 1 / 10, 3 / 10⟩

def c3f : Docai.Entity := ⟨"name", "ALICE", 1, 1 / 10, 15 / 100⟩

def c3entities : List Docai.Entity := [c3a1, c3a2, c3f]

theorem C3_aggregator_partition_witness :
    (∀ e ∈ c3entities.filter Docai.isVoterId, e.page = 1 ∧ Docai.colOf e.x = 0) ∧
    ((c3entities.filter Docai.isVoterId).map (fun e => e.y)).Chain' (· < ·) ∧
    Docai.findBestCard (Docai.aggCards c3entities) 1 0 (15 / 100) = some 0 ∧
    (Docai.aggCards c3entities).length = 2 := by
  have hf : c3entities.filter Docai.isVoterId = [c3a1, c3a2] := by rfl
  have hanc : ∀ e ∈ c3entities.filter Docai.isVoterId, e.page = 1 ∧ Docai.colOf e.x = 0 := by
    intro e he
    rw [hf] at he
    fin_cases he
    · exact ⟨rfl, by norm_num [Docai.colOf, c3a1]⟩
    · exact ⟨rfl, by norm_num [Docai.colOf, c3a2]⟩
  have hinc : ((c3entities.filter Docai.isVoterId).map (fun e => e.y)).Chain' (· < ·) := by
    rw [hf]
    norm_num [c3a1, c3a2, List.map, List.chain'_cons, List.chain'_singleton]
  have h := C3_aggregator_partition c3entities 1 0 hanc hinc
  refine ⟨hanc, hinc, ?_, ?_⟩
  · refine h.2.2.1 c3f rfl (by norm_num [Docai.colOf, c3f]) 0
      { Docai.mkCard c3a1 with yEnd := c3a2.y } ?_ ?_ ?_
    · rw [h.1, hf]
      rfl
    · show c3a1.y ≤ 15 / 100
      norm_num [c3a1]
    · show (15 : ℚ) / 100 < c3a2.y
      norm_num [c3a2]
  · rw [h.2.1, hf]
    rfl

namespace App

/-- A pixel: the (r, g, b) triple `getdata` yields. -/
abbrev Px : Type := ℕ × ℕ × ℕ

/-- `int(page_height * 0.035)` — the header exclusion band. -/
def headerHeight (ph : ℕ) : ℕ :=
  (⌊(ph : ℚ) * (35 / 1000)⌋).toNat

/-- `int(page_height * 0.025)` — the footer exclusion band. -/
def footerHeight (ph : ℕ) : ℕ :=
  (⌊(ph : ℚ) * (25 / 1000)⌋).toNat

/-- The padded crop box of grid cell (row, col) on a `pw × ph` page
(`extract_cards_from_single_pdf`, `voter_counter_app_fast_5.0.py` lines
360-383): 3 columns, 10 rows, integer division, one pixel of inward padding,
clamped to the page. Returns (x1, y1, x2, y2). -/
def cellBox (pw ph row col : ℕ) : ℕ × ℕ × ℕ × ℕ :=
  (col * (pw / 3) + 1,
   headerHeight ph + row * ((ph - headerHeight ph - footerHeight ph) / 10) + 1,
   min pw (col * (pw / 3) + pw / 3) - 1,
   min ph (headerHeight ph + (row + 1) * ((ph - headerHeight ph - footerHeight ph) / 10)) - 1)

/-- `card_img.getdata()` of the crop: pixels of the box, row-major. -/
def cellPixels (pix : ℕ → ℕ → Px) (pw ph row col : ℕ) : List Px :=
  let box := cellBox pw ph row col
  ((List.range (box.2.2.2 - box.2.1)).map fun dy =>
    (List.range (box.2.2.1 - box.1)).map fun dx =>
      pix (box.1 + dx) (box.2.1 + dy)).join

/-- `sum(sum(p[:3]) / 3 for p in card_array) / len(card_array)`. -/
def avgBrightness (ps : List Px) : ℚ :=
  (ps.map fun p => ((p.1 : ℚ) + p.2.1 + p.2.2) / 3).sum / ps.length

/-- A cell is skipped iff its crop is non-empty and its mean brightness
exceeds the near-white threshold 252 (lines 387-391). -/
def cellBlank (pix : ℕ → ℕ → Px) (pw ph row col : ℕ) : Bool :=
  let ps := cellPixels pix pw ph row col
  decide (ps ≠ [] ∧ avgBrightness ps > 252)

/-- The 10 × 3 grid cells in row-major scan order (lines 372-373). -/
def gridCells : List (ℕ × ℕ) :=
  (List.range 10).bind fun r => (List.range 3).map fun c => (r, c)

/-- One iteration of the segmentation loop: skip a blank cell, otherwise
increment `card_count` and emit the cell with that serial number. -/
def stepCell (pix : ℕ → ℕ → Px) (pw ph : ℕ) (acc : ℕ × List (ℕ × ℕ × ℕ)) (rc : ℕ × ℕ) :
    ℕ × List (ℕ × ℕ × ℕ) :=
  if cellBlank pix pw ph rc.1 rc.2 then acc
  else (acc.1 + 1, acc.2 ++ [(rc.1, rc.2, acc.1 + 1)])

/-- The per-page segmentation of `extract_cards_from_single_pdf`: the emitted
SubImages as (row, col, serial number), with `card_count` starting at 0. -/
def segmentPage (pix : ℕ → ℕ → Px) (pw ph : ℕ) : List (ℕ × ℕ × ℕ) :=
  (gridCells.foldl (stepCell pix pw ph) (0, [])).2

/-- The non-blank cells in row-major order. -/
def nonBlankCells (pix : ℕ → ℕ → Px) (pw ph : ℕ) : List (ℕ × ℕ) :=
  gridCells.filter fun rc => !cellBlank pix pw ph rc.1 rc.2

/-- Sequential numbering of a cell list starting at `n + 1`. -/
def numberFrom (n : ℕ) (l : List (ℕ × ℕ)) : List (ℕ × ℕ × ℕ) :=
  l.enum.map fun irc => (irc.2.1, irc.2.2, n + irc.1 + 1)

theorem foldl_stepCell (pix : ℕ → ℕ → Px) (pw ph : ℕ) :
    ∀ (cl : List (ℕ × ℕ)) (n : ℕ) (out : List (ℕ × ℕ × ℕ)),
      cl.foldl (stepCell pix pw ph) (n, out) =
        (n + (cl.filter fun rc => !cellBlank pix pw ph rc.1 rc.2).length,
         out ++ numberFrom n (cl.filter fun rc => !cellBlank pix pw ph rc.1 rc.2)) := by
  intro cl
  induction cl with
  | nil => intro n out; simp [numberFrom]
  | cons rc rest ih =>
    intro n out
    rw [List.foldl_cons, stepCell]
    by_cases hb : cellBlank pix pw ph rc.1 rc.2
    · rw [if_pos hb, ih n out, List.filter_cons_of_neg (by simp [hb])]
    · rw [if_neg hb, ih (n + 1) (out ++ [(rc.1, rc.2, n + 1)]),
        List.filter_cons_of_pos (by simp [hb])]
      rw [Prod.mk.injEq]
      refine ⟨by simp only [List.length_cons]; omega, ?_⟩
      rw [List.append_assoc]
      congr 1
      simp only [numberFrom, List.enum, List.enumFrom_cons, List.map_cons,
        List.singleton_append]
      rw [List.cons.injEq]
      refine ⟨by simp, ?_⟩
      have hshift : ∀ (l2 : List (ℕ × ℕ)) (k : ℕ),
          (l2.enumFrom k).map (fun irc => (irc.2.1, irc.2.2, n + 1 + irc.1 + 1)) =
          (l2.enumFrom (k + 1)).map (fun irc => (irc.2.1, irc.2.2, n + irc.1 + 1)) := by
        intro l2
        induction l2 with
        | nil => intro k; rfl
        | cons q qrest ihq =>
          intro k
          rw [List.enumFrom_cons, List.enumFrom_cons, List.map_cons, List.map_cons]
          refine congrArg₂ _ ?_ (ihq (k + 1))
          simp only [Prod.mk.injEq, true_and]
          omega
      exact hshift _ 0

theorem cellPixels_congr (pw ph row col : ℕ) (pix pix₂ : ℕ → ℕ → Px)
    (hagree : ∀ x y, x < pw → y < ph → pix x y = pix₂ x y) :
    cellPixels pix₂ pw ph row col = cellPixels pix pw ph row col := by
  rw [cellPixels, cellPixels]
  congr 1
  refine List.map_congr_left ?_
  intro dy hdy
  refine List.map_congr_left ?_
  intro dx hdx
  rw [List.mem_range] at hdy hdx
  simp only [cellBox] at hdy hdx ⊢
  refine (hagree _ _ ?_ ?_).symm
  · omega
  · omega

end App

/-- C5: the Page Segmenter numbers exactly the non-blank cells, sequentially
from 1 in row-major scan order, and the output depends only on the pixels
inside the page, so two runs on the same page image produce the identical
numbered sequence. -/
theorem C5_segmentation_numbering (pix : ℕ → ℕ → App.Px) (pw ph : ℕ) :
    App.segmentPage pix pw ph = App.numberFrom 0 (App.nonBlankCells pix pw ph) ∧
    (App.segmentPage pix pw ph).length = (App.nonBlankCells pix pw ph).length ∧
    (∀ pix₂ : ℕ → ℕ → App.Px,
      (∀ x y, x < pw → y < ph → pix x y = pix₂ x y) →
      App.segmentPage pix₂ pw ph = App.segmentPage pix pw ph) := by
  have h1 : App.segmentPage pix pw ph = App.numberFrom 0 (App.nonBlankCells pix pw ph) := by
    rw [App.segmentPage, App.foldl_stepCell]
    rw [App.nonBlankCells]
    simp
  refine ⟨h1, by rw [h1]; simp [App.numberFrom], ?_⟩
  intro pix₂ hagree
  have hblank : ∀ rc : ℕ × ℕ,
      App.cellBlank pix₂ pw ph rc.1 rc.2 = App.cellBlank pix pw ph rc.1 rc.2 := by
    intro rc
    rw [App.cellBlank, App.cellBlank, App.cellPixels_congr pw ph rc.1 rc.2 pix pix₂ hagree]
  have h2 : App.segmentPage pix₂ pw ph = App.numberFrom 0 (App.nonBlankCells pix₂ pw ph) := by
    rw [App.segmentPage, App.foldl_stepCell]
    rw [App.nonBlankCells]
    simp
  rw [h1, h2, App.nonBlankCells, App.nonBlankCells]
  congr 1
  refine List.filter_congr ?_
  intro rc _
  rw [hblank rc]

/-- A synthetic 3-column/10-row page (9 × 100 pixels): cells (0,0) and (5,2)
are blank white, the other 28 cells are dark. -/
def c5pix (x y : ℕ) : App.Px :=
  if (x = 1 ∧ 4 ≤ y ∧ y < 11) ∨ (x = 7 ∧ 49 ≤ y ∧ y < 56) then (255, 255, 255)
  else (0, 0, 0)

/-- A second rendering of the same page: identical inside the page bounds,
different garbage outside. -/
def c5pix2 (x y : ℕ) : App.Px :=
  if x < 9 ∧ y < 100 then c5pix x y else (7, 7, 7)

set_option maxHeartbeats 1000000 in
theorem C5_segmentation_numbering_witness :
    (∀ x y, x < 9 → y < 100 → c5pix x y = c5pix2 x y) ∧
    App.segmentPage c5pix2 9 100 = App.segmentPage c5pix 9 100 ∧
    App.segmentPage c5pix 9 100 = App.numberFrom 0 (App.nonBlankCells c5pix 9 100) ∧
    App.segmentPage c5pix 9 100 =
      [(0, 1, 1), (0, 2, 2), (1, 0, 3), (1, 1, 4), (1, 2, 5), (2, 0, 6), (2, 1, 7),
       (2, 2, 8), (3, 0, 9), (3, 1, 10), (3, 2, 11), (4, 0, 12), (4, 1, 13), (4, 2, 14),
       (5, 0, 15), (5, 1, 16), (6, 0, 17), (6, 1, 18), (6, 2, 19), (7, 0, 20), (7, 1, 21),
       (7, 2, 22), (8, 0, 23), (8, 1, 24), (8, 2, 25), (9, 0, 26), (9, 1, 27), (9, 2, 28)] ∧
    (App.segmentPage c5pix 9 100).length = 28 := by
  have hagree : ∀ x y, x < 9 → y < 100 → c5pix x y = c5pix2 x y := by
    intro x y hx hy
    rw [c5pix2, if_pos ⟨hx, hy⟩]
  have h := C5_segmentation_numbering c5pix 9 100
  have hH : App.headerHeight 100 = 3 := by norm_num [App.headerHeight]; rfl
  have hF : App.footerHeight 100 = 2 := by norm_num [App.footerHeight]; rfl
  have hnb : App.nonBlankCells c5pix 9 100 =
      [(0, 1), (0, 2), (1, 0), (1, 1), (1, 2), (2, 0), (2, 1), (2, 2), (3, 0), (3, 1),
       (3, 2), (4, 0), (4, 1), (4, 2), (5, 0), (5, 1), (6, 0), (6, 1), (6, 2), (7, 0),
       (7, 1), (7, 2), (8, 0), (8, 1), (8, 2), (9, 0), (9, 1), (9, 2)] := by
    norm_num [App.nonBlankCells, App.gridCells, App.cellBlank, App.cellPixels, App.cellBox,
      hH, hF, App.avgBrightness, c5pix, List.range_succ, List.filter, decide_eq_true_eq]
    simp +decide
  have hseg : App.segmentPage c5pix 9 100 =
      [(0, 1, 1), (0, 2, 2), (1, 0, 3), (1, 1, 4), (1, 2, 5), (2, 0, 6), (2, 1, 7),
       (2, 2, 8), (3, 0, 9), (3, 1, 10), (3, 2, 11), (4, 0, 12), (4, 1, 13), (4, 2, 14),
       (5, 0, 15), (5, 1, 16), (6, 0, 17), (6, 1, 18), (6, 2, 19), (7, 0, 20), (7, 1, 21),
       (7, 2, 22), (8, 0, 23), (8, 1, 24), (8, 2, 25), (9, 0, 26), (9, 1, 27), (9, 2, 28)] := by
    rw [h.1, hnb]
    rfl
  exact ⟨hagree, h.2.2 c5pix2 hagree, h.1, hseg, by rw [hseg]; rfl⟩

namespace App

open Util

/-- The JSON value universe of `json.dump` / `json.load`.  Python ints and
floats are distinct JSON-level number forms; floats are embedded as exact
rationals. -/
inductive Json where
  | null : Json
  | bool (b : Bool) : Json
  | int (z : ℤ) : Json
  | float (q : ℚ) : Json
  | str (s : String) : Json
  | arr (xs : List Json) : Json
  | obj (kvs : List (String × Json)) : Json

/-- One OCR result-table entry: (serial label, field map or null, pdf name). -/
abbrev OcrEntry : Type := String × Option VoterData × String

/-- One card-index entry: (jpg path, global index, pdf name). -/
abbrev CardEntry : Type := String × ℕ × String

/-- The `CheckpointManager.data` dict (`voter_counter_app_fast_5.0.py` lines
409-420), fields in the dict-literal order that `json.dump` preserves.  The
`ocr_results` keys are written as `str(global_idx)` (`add_ocr_result`) and
read back with `int(k)` (`get_ocr_results`); the model keeps the table keyed
by ℕ and applies the decimal string codec at the JSON boundary. -/
structure CkData where
  phase : ℕ
  constituency_name : String
  folder_path : String
  total_pdfs : ℕ
  extracted_pdfs : List (String × ℕ × Option String)
  ocr_results : List (ℕ × OcrEntry)
  enhanced_ocr_done : List ℕ
  all_cards : List CardEntry
  start_time : ℚ
  elapsed_before_resume : ℚ
deriving DecidableEq

/-- The constructor-default checkpoint data. -/
def initData : CkData :=
  ⟨0, "", "", 0, [], [], [], [], 0, 0⟩

/-- Field maps serialize as the 8-key dict of `parse_voter_card_standalone`. -/
def encodeOptData : Option VoterData → Json
  | none => .null
  | some d => .obj [("serial_no", .str d.serial_no), ("voter_id", .str d.voter_id),
      ("name", .str d.name), ("relation_name", .str d.relation_name),
      ("relation_type", .str d.relation_type), ("house_no", .str d.house_no),
      ("age", .str d.age), ("gender", .str d.gender)]

/-- Tuples serialize as JSON arrays. -/
def encodeOcrEntry (e : OcrEntry) : Json :=
  .arr [.str e.1, encodeOptData e.2.1, .str e.2.2]

def encodeExtracted (v : ℕ × Option String) : Json :=
  .arr [.int v.1, match v.2 with | some s => .str s | none => .null]

def encodeCard (ce : CardEntry) : Json :=
  .arr [.str ce.1, .int ce.2.1, .str ce.2.2]

/-- `json.dump(self.data, ...)` (`CheckpointManager.save`, lines 447-459). -/
def encodeCk (d : CkData) : Json :=
  .obj [("phase", .int d.phase),
    ("constituency_name", .str d.constituency_name),
    ("folder_path", .str d.folder_path),
    ("total_pdfs", .int d.total_pdfs),
    ("extracted_pdfs", .obj (d.extracted_pdfs.map fun kv => (kv.1, encodeExtracted kv.2))),
    ("ocr_results", .obj (d.ocr_results.map fun kv => (natToDec kv.1, encodeOcrEntry kv.2))),
    ("enhanced_ocr_done", .arr (d.enhanced_ocr_done.map fun n => .int (Int.ofNat n))),
    ("all_cards", .arr (d.all_cards.map encodeCard)),
    ("start_time", .float d.start_time),
    ("elapsed_before_resume", .float d.elapsed_before_resume)]

def decodeNatJ : Json → Option ℕ
  | .int z => if 0 ≤ z then some z.toNat else none
  | _ => none

def decodeOptData : Json → Option (Option VoterData)
  | .null => some none
  | .obj [("serial_no", .str a), ("voter_id", .str b), ("name", .str c),
      ("relation_name", .str d), ("relation_type", .str e), ("house_no", .str f),
      ("age", .str g), ("gender", .str h)] => some (some ⟨a, b, c, d, e, f, g, h⟩)
  | _ => none

def decodeOcrEntry : Json → Option OcrEntry
  | .arr [.str s, dv, .str n] => (decodeOptData dv).map fun d => (s, d, n)
  | _ => none

def decodeExtracted : Json → Option (ℕ × Option String)
  | .arr [.int z, .null] => if 0 ≤ z then some (z.toNat, none) else none
  | .arr [.int z, .str s] => if 0 ≤ z then some (z.toNat, some s) else none
  | _ => none

def decodeCard : Json → Option CardEntry
  | .arr [.str p, .int z, .str n] => if 0 ≤ z then some (p, z.toNat, n) else none
  | _ => none

def decodeKVs {α : Type} (dec : Json → Option α) : List (String × Json) → Option (List (String × α))
  | [] => some []
  | (k, v) :: rest =>
    match dec v, decodeKVs dec rest with
    | some a, some l => some ((k, a) :: l)
    | _, _ => none

def decodeNatKVs {α : Type} (dec : Json → Option α) : List (String × Json) → Option (List (ℕ × α))
  | [] => some []
  | (k, v) :: rest =>
    match decToNat k, dec v, decodeNatKVs dec rest with
    | some n, some a, some l => some ((n, a) :: l)
    | _, _, _ => none

def decodeListJ {α : Type} (dec : Json → Option α) : List Json → Option (List α)
  | [] => some []
  | v :: rest =>
    match dec v, decodeListJ dec rest with
    | some a, some l => some (a :: l)
    | _, _ => none

/-- Structural read-back of the checkpoint dict.  (Python's `json.load`
accepts any JSON and the pipeline's subsequent field accesses raise uncaught
exceptions on malformed structure; decoding failure models that path.) -/
def decodeCk : Json → Option CkData
  | .obj [("phase", jp), ("constituency_name", .str cn), ("folder_path", .str fp),
      ("total_pdfs", jt), ("extracted_pdfs", .obj eps), ("ocr_results", .obj ors),
      ("enhanced_ocr_done", .arr eod), ("all_cards", .arr acs),
      ("start_time", .float st), ("elapsed_before_resume", .float el)] =>
    match decodeNatJ jp, decodeNatJ jt, decodeKVs decodeExtracted eps,
        decodeNatKVs decodeOcrEntry ors, decodeListJ decodeNatJ eod,
        decodeListJ decodeCard acs with
    | some ph, some tp, some ep, some oc, some en, some ac =>
      some ⟨ph, cn, fp, tp, ep, oc, en, ac, st, el⟩
    | _, _, _, _, _, _ => none
  | _ => none

end App

namespace App

open Util

theorem decodeNatJ_int (n : ℕ) : decodeNatJ (.int n) = some n := by
  rw [decodeNatJ]
  rw [if_pos (by omega)]
  simp

theorem decodeOptData_encode (d : Option VoterData) : decodeOptData (encodeOptData d) = some d := by
  match d with
  | none => rfl
  | some vd => rfl

theorem decodeOcrEntry_encode (e : OcrEntry) : decodeOcrEntry (encodeOcrEntry e) = some e := by
  match e with
  | (s, d, n) =>
    rw [encodeOcrEntry, decodeOcrEntry]
    simp [decodeOptData_encode]

theorem decodeExtracted_encode (v : ℕ × Option String) :
    decodeExtracted (encodeExtracted v) = some v := by
  match v with
  | (n, none) =>
    rw [encodeExtracted, decodeExtracted]
    rw [if_pos (by omega)]
    simp
  | (n, some s) =>
    rw [encodeExtracted, decodeExtracted]
    rw [if_pos (by omega)]
    simp

theorem decodeCard_encode (ce : CardEntry) : decodeCard (encodeCard ce) = some ce := by
  match ce with
  | (p, n, nm) =>
    rw [encodeCard, decodeCard]
    rw [if_pos (by omega)]
    simp

theorem decodeKVs_encode {α : Type} (dec : Json → Option α) (enc : α → Json)
    (h : ∀ a, dec (enc a) = some a) :
    ∀ l : List (String × α), decodeKVs dec (l.map fun kv => (kv.1, enc kv.2)) = some l := by
  intro l
  induction l with
  | nil => rfl
  | cons kv rest ih =>
    rw [List.map_cons, decodeKVs, h kv.2, ih]

theorem decodeNatKVs_encode {α : Type} (dec : Json → Option α) (enc : α → Json)
    (h : ∀ a, dec (enc a) = some a) :
    ∀ l : List (ℕ × α), decodeNatKVs dec (l.map fun kv => (natToDec kv.1, enc kv.2)) = some l := by
  intro l
  induction l with
  | nil => rfl
  | cons kv rest ih =>
    rw [List.map_cons, decodeNatKVs, decToNat_natToDec, h kv.2, ih]

theorem decodeListJ_encode {α : Type} (dec : Json → Option α) (enc : α → Json)
    (h : ∀ a, dec (enc a) = some a) :
    ∀ l : List α, decodeListJ dec (l.map enc) = some l := by
  intro l
  induction l with
  | nil => rfl
  | cons a rest ih =>
    rw [List.map_cons, decodeListJ, h a, ih]

end App

/-- C9: a CheckpointState saved by `CheckpointManager.save` and read back by
`CheckpointManager.load` restores exactly the same structure — phase,
per-SourceUnit segmentation summaries, the Record table keyed by the
string-encoded global index, the repair-phase index set, the card index list,
and the accumulated elapsed seconds. -/
theorem C9_checkpoint_roundtrip (d : App.CkData) :
    App.decodeCk (App.encodeCk d) = some d := by
  have hobj : ∀ (jp : App.Json) (cn fp : String) (jt : App.Json)
      (eps ors : List (String × App.Json)) (eod acs : List App.Json) (st el : ℚ),
      App.decodeCk (.obj [("phase", jp), ("constituency_name", .str cn),
        ("folder_path", .str fp), ("total_pdfs", jt), ("extracted_pdfs", .obj eps),
        ("ocr_results", .obj ors), ("enhanced_ocr_done", .arr eod), ("all_cards", .arr acs),
        ("start_time", .float st), ("elapsed_before_resume", .float el)]) =
      match App.decodeNatJ jp, App.decodeNatJ jt, App.decodeKVs App.decodeExtracted eps,
          App.decodeNatKVs App.decodeOcrEntry ors, App.decodeListJ App.decodeNatJ eod,
          App.decodeListJ App.decodeCard acs with
      | some ph, some tp, some ep, some oc, some en, some ac =>
        some ⟨ph, cn, fp, tp, ep, oc, en, ac, st, el⟩
      | _, _, _, _, _, _ => none := fun _ _ _ _ _ _ _ _ _ _ => rfl
  rw [App.encodeCk, hobj]
  rw [App.decodeNatJ_int, App.decodeNatJ_int,
    App.decodeKVs_encode App.decodeExtracted App.encodeExtracted App.decodeExtracted_encode,
    App.decodeNatKVs_encode App.decodeOcrEntry App.encodeOcrEntry App.decodeOcrEntry_encode,
    App.decodeListJ_encode App.decodeNatJ (fun n => App.Json.int (Int.ofNat n))
      (fun n => App.decodeNatJ_int n),
    App.decodeListJ_encode App.decodeCard App.encodeCard App.decodeCard_encode]

namespace App

/-- The checkpoint file's observable state for one load attempt. -/
inductive FileContent where
  /-- The file exists but reading it raises an OS or text-decoding error
  (`OSError` / `UnicodeDecodeError`) — not a `json.JSONDecodeError`. -/
  | ioError : FileContent
  /-- The file is readable but `json.load` raises `json.JSONDecodeError`. -/
  | badJson : FileContent
  /-- The file holds a well-formed JSON document. -/
  | stored (j : Json) : FileContent

/-- `CheckpointManager.load` (lines 425-445): absent file → `False`; a
`JSONDecodeError` is caught, the corrupt file deleted, `False` returned with
the manager's data untouched; any other exception in the `try` block
(unreadable file, or a loaded document of the wrong shape whose field
accesses raise) propagates, modeled as `.error`.  Returns (return value,
`self.data` afterwards, file state afterwards). -/
def loadCk (current : CkData) (file : Option FileContent) :
    Except Unit (Bool × CkData × Option FileContent) :=
  match file with
  | none => .ok (false, current, none)
  | some .ioError => .error ()
  | some .badJson => .ok (false, current, none)
  | some (.stored j) =>
    match decodeCk j with
    | some d => .ok (true, d, some (.stored j))
    | none => .error ()

/-- The fresh-start state set up by `batch_extract_thread` lines 711-721. -/
def freshCk (constituencyName folderPath : String) (totalPdfs : ℕ) (startTime : ℚ) : CkData :=
  { initData with
    constituency_name := constituencyName
    folder_path := folderPath
    total_pdfs := totalPdfs
    start_time := startTime }

/-- The resume decision of `batch_extract_thread` lines 703-721: with
`resume_mode` set and a successful load, continue at the recorded phase with
the loaded data; otherwise start at phase 0 with fresh state.  Returns
(current_phase, checkpoint data, file state). -/
def resumeInit (resume : Bool) (file : Option FileContent)
    (constituencyName folderPath : String) (totalPdfs : ℕ) (startTime : ℚ) :
    Except Unit (ℕ × CkData × Option FileContent) :=
  if resume then
    match loadCk initData file with
    | .error e => .error e
    | .ok (true, d, f) => .ok (d.phase, d, f)
    | .ok (false, _, f) => .ok (0, freshCk constituencyName folderPath totalPdfs startTime, f)
  else .ok (0, freshCk constituencyName folderPath totalPdfs startTime, file)

end App

/-- C7 is false as stated for an unreadable checkpoint file: `load` catches
only `json.JSONDecodeError`, so an OS-level read failure propagates out of
the thread instead of being discarded and restarted cleanly. -/
theorem C7_corrupt_checkpoint_counterexample :
    App.resumeInit true (some .ioError) "c" "f" 0 0 = .error () ∧
    ∀ d : App.CkData, App.resumeInit true (some .ioError) "c" "f" 0 0 ≠ .ok (0, d, none) := by
  constructor
  · rfl
  · intro d h
    exact Except.noConfusion (h.symm.trans rfl)

/-- C7 (amended): if the checkpoint file exists but its content fails JSON
parsing, loading fails cleanly — the corrupt file is deleted, never merged —
and the run restarts at phase 0 with the fresh empty state; an absent file
likewise starts fresh, and a checkpoint written by `save` loads back exactly.
An OS-level read failure, however, is not caught and propagates. -/
theorem C7_corrupt_checkpoint_amended (cn fp : String) (tp : ℕ) (st : ℚ) :
    App.resumeInit true (some .badJson) cn fp tp st =
      .ok (0, App.freshCk cn fp tp st, none) ∧
    App.resumeInit true none cn fp tp st =
      .ok (0, App.freshCk cn fp tp st, none) ∧
    (∀ d : App.CkData, App.resumeInit true (some (.stored (App.encodeCk d))) cn fp tp st =
      .ok (d.phase, d, some (.stored (App.encodeCk d)))) ∧
    App.resumeInit true (some .ioError) cn fp tp st = .error () := by
  refine ⟨rfl, rfl, ?_, rfl⟩
  intro d
  rw [App.resumeInit, if_pos rfl, App.loadCk, C9_checkpoint_roundtrip d]

namespace App

open Util

/-- `enhanced_ocr_age_gender` (lines 120-155).  Image decoding and OCR run
outside the model; `ocrText = none` is an exception before the inner `try`
(result `None`), `some none` an exception inside it (empty result), and
`some (some t)` a successful OCR of the contrast-enhanced bottom crop. -/
def enhanced_ocr_age_gender (ocrText : Option (Option String)) (globalIdx : ℕ) :
    ℕ × Option (String × String) :=
  match ocrText with
  | none => (globalIdx, none)
  | some none => (globalIdx, some ("", ""))
  | some (some text) =>
    (globalIdx, some
      ((match ageScan text.data with | some ds => (⟨ds⟩ : String) | none => ""),
       (if strHasSub text "பாலினம்" then
          if strHasSub text "ஆண்" then "Male"
          else if strHasSub text "பெண்" then "Female"
          else ""
        else "")))

/-- Phase 3's work list (lines 964-976): entries not yet repaired whose data
is present but missing age or gender, paired with the card path
`all_cards[global_idx]` (list indexing; the `getD` default is unreachable for
the consistent states the pipeline produces). -/
def cardsToFix (ck : CkData) : List (String × ℕ) :=
  ck.ocr_results.filterMap fun kv =>
    if kv.1 ∈ ck.enhanced_ocr_done then none
    else
      match kv.2.2.1 with
      | some d =>
        if d.age = "" ∨ d.gender = "" then
          some ((((ck.all_cards.get? kv.1).map fun ce => ce.1).getD ""), kv.1)
        else none
      | none => none

/-- Recording one enhanced-OCR result (lines 990-1001): mark the index
repaired, then fill only the still-missing fields and re-store the entry. -/
def applyEnhanced (enhance : String → Option (Option String)) (ck : CkData)
    (pr : String × ℕ) : CkData :=
  let res := enhanced_ocr_age_gender (enhance pr.1) pr.2
  let ck :=
    { ck with
      enhanced_ocr_done :=
        if pr.2 ∈ ck.enhanced_ocr_done then ck.enhanced_ocr_done
        else ck.enhanced_ocr_done ++ [pr.2] }
  match res.2 with
  | none => ck
  | some e =>
    match dictGet pr.2 ck.ocr_results with
    | none => ck
    | some (sNo, od, pdfName) =>
      match od with
      | none => ck
      | some d =>
        let d := if d.age = "" ∧ e.1 ≠ "" then { d with age := e.1 } else d
        let d := if d.gender = "" ∧ e.2 ≠ "" then { d with gender := e.2 } else d
        { ck with ocr_results := dictSet pr.2 (sNo, some d, pdfName) ck.ocr_results }

/-- Phase 3 (lines 959-1030): fix the listed cards, then commit phase 3. -/
def runPhase3 (enhance : String → Option (Option String)) (ck : CkData) : CkData :=
  let fixed := (cardsToFix ck).foldl (applyEnhanced enhance) ck
  { fixed with phase := 3 }

/-- Phase 4 reads `get_ocr_results` and walks `sorted(ocr_results.keys())`
(line 1057); the final Record table is the index-sorted view of the table. -/
def finalTable (ck : CkData) : List (ℕ × OcrEntry) :=
  ((ck.ocr_results.map fun kv => kv.1).mergeSort fun a b => decide (a ≤ b)).filterMap
    fun k => (dictGet k ck.ocr_results).map fun v => (k, v)

/-- The pipeline from the phase dispatch on: phase 3 runs iff the current
phase is below 3 (phases 1 and 2 are skipped when the checkpoint already
records them complete), then phase 4 exports. -/
def continueRun (enhance : String → Option (Option String)) (currentPhase : ℕ)
    (ck : CkData) : CkData :=
  if currentPhase < 3 then runPhase3 enhance ck else ck

end App

/-- C1: for a run whose phase-2 (recognize) work is complete and checkpointed,
continuing in one uninterrupted pass and stopping/resuming from the saved
checkpoint produce the identical final Record table: the resumed run loads
exactly the saved state (phase 2 included), skips phases 1-2, and the
deterministic phase-3 repair and phase-4 export yield the same set of global
indices mapped to the same serial labels, field values and source unit
names. -/
theorem C1_resume_after_phase2 (enhance : String → Option (Option String))
    (ck : App.CkData) (hphase : ck.phase = 2) :
    ∃ loaded fileAfter,
      App.loadCk App.initData (some (.stored (App.encodeCk ck))) =
        .ok (true, loaded, fileAfter) ∧
      loaded.phase = 2 ∧
      App.continueRun enhance loaded.phase loaded = App.continueRun enhance 2 ck ∧
      App.finalTable (App.continueRun enhance loaded.phase loaded) =
        App.finalTable (App.continueRun enhance 2 ck) := by
  refine ⟨ck, some (.stored (App.encodeCk ck)), ?_, hphase, ?_, ?_⟩
  · rw [App.loadCk, C9_checkpoint_roundtrip ck]
  · rw [hphase]
  · rw [hphase]

/-- A concrete phase-2-complete checkpoint: two recognized cards, the first
missing its age. -/
def c1ck : App.CkData :=
  ⟨2, "K", "/f", 1, [("pdfA", 2, some "/t/cardsA")],
   [(0, ("1", some ⟨"1", "ABC1234567", "KUMAR", "RAJ", "Father", "12", "", "Male"⟩, "pdfA")),
    (1, ("2", some ⟨"2", "XYZ1234567", "LATHA", "RAM", "Husband", "13", "45", "Female"⟩, "pdfA"))],
   [], [("/t/cardsA/1.jpg", 0, "pdfA"), ("/t/cardsA/2.jpg", 1, "pdfA")], 0, 0⟩

/-- The repair oracle for the witness: the first card's bottom crop reads an
age, the second is never queried. -/
def c1enh (p : String) : Option (Option String) :=
  if p = "/t/cardsA/1.jpg" then some (some "வயது : 42") else none

unseal List.mergeSort List.merge in
theorem C1_resume_after_phase2_witness :
    c1ck.phase = 2 ∧
    (∃ loaded fileAfter,
      App.loadCk App.initData (some (.stored (App.encodeCk c1ck))) =
        .ok (true, loaded, fileAfter) ∧
      loaded.phase = 2 ∧
      App.continueRun c1enh loaded.phase loaded = App.continueRun c1enh 2 c1ck ∧
      App.finalTable (App.continueRun c1enh loaded.phase loaded) =
        App.finalTable (App.continueRun c1enh 2 c1ck)) ∧
    App.finalTable (App.continueRun c1enh 2 c1ck) =
      [(0, ("1", some ⟨"1", "ABC1234567", "KUMAR", "RAJ", "Father", "12", "42", "Male"⟩, "pdfA")),
       (1, ("2", some ⟨"2", "XYZ1234567", "LATHA", "RAM", "Husband", "13", "45", "Female"⟩, "pdfA"))] :=
  ⟨rfl, C1_resume_after_phase2 c1enh c1ck rfl, by decide⟩

namespace App

open Util

/-- `pathlib.Path(s).stem`: the final path component minus its last suffix
(a suffix requires a dot after the first character of the name). -/
def stem (s : String) : String :=
  let nm := ((splitOnCh '/' s.data).getLast?).getD []
  let suf := (nm.reverse.takeWhile fun c => c ≠ '.')
  if suf.length + 2 ≤ nm.length then ⟨nm.take (nm.length - suf.length - 1)⟩ else ⟨nm⟩

/-- `ocr_single_card` (lines 95-117).  `Image.open` and `pytesseract` run
outside the model; `ocrText` is their outcome: `.ok text` a successful
recognition, `.error ()` a raised exception, which the worker catches and
converts into a result with a `None` field map. -/
def ocr_single_card (extractVid : String → String) (ocrText : Except Unit String)
    (jpgPath : String) (globalIdx : ℕ) (pdfName : String) :
    ℕ × String × Option VoterData × String :=
  match ocrText with
  | .ok text =>
    (globalIdx, stem jpgPath, some (parse_voter_card_standalone extractVid text), pdfName)
  | .error _ => (globalIdx, stem jpgPath, none, pdfName)

/-- The orchestrator's result loop (lines 905-909): every retrieved result is
recorded into the index-keyed table (`ocr_results[global_idx] = (s_no, data,
pdf_name)`), and the loop continues with the remaining results. -/
def recordResults (table : List (ℕ × OcrEntry))
    (results : List (ℕ × String × Option VoterData × String)) : List (ℕ × OcrEntry) :=
  results.foldl (fun t r => dictSet r.1 r.2 t) table

theorem dictGet_recordResults_notin (idx : ℕ) :
    ∀ (results : List (ℕ × String × Option VoterData × String)) (table : List (ℕ × OcrEntry)),
      idx ∉ results.map (fun r => r.1) →
      dictGet idx (recordResults table results) = dictGet idx table := by
  intro results
  induction results with
  | nil => intro table _; rfl
  | cons r rest ih =>
    intro table hn
    rw [List.map_cons] at hn
    rw [recordResults, List.foldl_cons]
    have h1 : idx ∉ rest.map (fun r => r.1) := fun h => hn (List.mem_cons_of_mem _ h)
    have h2 : idx ≠ r.1 := fun h => hn (h ▸ List.mem_cons_self _ _)
    rw [show List.foldl (fun t r => dictSet r.1 r.2 t) (dictSet r.1 r.2 table) rest =
        recordResults (dictSet r.1 r.2 table) rest from rfl]
    rw [ih (dictSet r.1 r.2 table) h1, dictGet_dictSet_ne r.1 idx r.2 table h2]

theorem dictGet_recordResults_mem :
    ∀ (results : List (ℕ × String × Option VoterData × String)) (table : List (ℕ × OcrEntry))
      (r : ℕ × String × Option VoterData × String),
      r ∈ results → (results.map fun r => r.1).Nodup →
      dictGet r.1 (recordResults table results) = some r.2 := by
  intro results
  induction results with
  | nil => intro _ r h; exact absurd h (List.not_mem_nil r)
  | cons r0 rest ih =>
    intro table r hmem hnd
    rw [List.map_cons, List.nodup_cons] at hnd
    rw [recordResults, List.foldl_cons]
    rw [show List.foldl (fun t r => dictSet r.1 r.2 t) (dictSet r0.1 r0.2 table) rest =
        recordResults (dictSet r0.1 r0.2 table) rest from rfl]
    rcases List.mem_cons.mp hmem with h0 | hr
    · subst h0
      rw [dictGet_recordResults_notin r.1 rest _ hnd.1,
        dictGet_dictSet_self r.1 r.2 table]
    · exact ih (dictSet r0.1 r0.2 table) r hr hnd.2

end App

/-- C8: a task whose OCR raises is converted inside the worker into a result
pairing its global index with a `None` field map (the worker never
propagates), and the orchestrator records every retrieved result — failed
tasks included — into the index-keyed table and keeps processing the rest:
afterwards every task's index is present, failed ones mapped to `None`. -/
theorem C8_task_failure_absorbed (extractVid : String → String)
    (oracle : String → Except Unit String) (tasks : List (String × ℕ × String))
    (table : List (ℕ × App.OcrEntry))
    (hnd : (tasks.map fun t => t.2.1).Nodup) :
    (∀ jp gi pn, oracle jp = .error () →
      App.ocr_single_card extractVid (oracle jp) jp gi pn = (gi, App.stem jp, none, pn)) ∧
    (∀ t ∈ tasks,
      Util.dictGet t.2.1
        (App.recordResults table
          (tasks.map fun t2 => App.ocr_single_card extractVid (oracle t2.1) t2.1 t2.2.1 t2.2.2)) =
      some (App.ocr_single_card extractVid (oracle t.1) t.1 t.2.1 t.2.2).2) ∧
    (∀ t ∈ tasks, oracle t.1 = .error () →
      Util.dictGet t.2.1
        (App.recordResults table
          (tasks.map fun t2 => App.ocr_single_card extractVid (oracle t2.1) t2.1 t2.2.1 t2.2.2)) =
      some (App.stem t.1, none, t.2.2)) := by
  have hkeys : ((tasks.map fun t2 =>
      App.ocr_single_card extractVid (oracle t2.1) t2.1 t2.2.1 t2.2.2).map fun r => r.1) =
      tasks.map fun t => t.2.1 := by
    rw [List.map_map]
    refine List.map_congr_left ?_
    intro t _
    show (App.ocr_single_card extractVid (oracle t.1) t.1 t.2.1 t.2.2).1 = t.2.1
    rw [App.ocr_single_card.eq_def]
    rcases oracle t.1 with _ | _ <;> rfl
  have hmain : ∀ t ∈ tasks,
      Util.dictGet t.2.1
        (App.recordResults table
          (tasks.map fun t2 => App.ocr_single_card extractVid (oracle t2.1) t2.1 t2.2.1 t2.2.2)) =
      some (App.ocr_single_card extractVid (oracle t.1) t.1 t.2.1 t.2.2).2 := by
    intro t ht
    have hidx : (App.ocr_single_card extractVid (oracle t.1) t.1 t.2.1 t.2.2).1 = t.2.1 := by
      rw [App.ocr_single_card.eq_def]
      rcases oracle t.1 with _ | _ <;> rfl
    have := App.dictGet_recordResults_mem
      (tasks.map fun t2 => App.ocr_single_card extractVid (oracle t2.1) t2.1 t2.2.1 t2.2.2)
      table (App.ocr_single_card extractVid (oracle t.1) t.1 t.2.1 t.2.2)
      (List.mem_map_of_mem _ ht) (by rw [hkeys]; exact hnd)
    rw [hidx] at this
    exact this
  refine ⟨?_, hmain, ?_⟩
  · intro jp gi pn herr
    rw [herr, App.ocr_single_card.eq_def]
  · intro t ht herr
    have := hmain t ht
    rw [App.ocr_single_card.eq_def, herr] at this
    exact this

def c8tasks : List (String × ℕ × String) := [("a/1.jpg", 0, "pdfA"), ("a/2.jpg", 1, "pdfA")]

def c8oracle (p : String) : Except Unit String :=
  if p = "a/2.jpg" then .error () else .ok "வயது : 30"

theorem C8_task_failure_absorbed_witness :
    ((c8tasks.map fun t => t.2.1).Nodup) ∧
    c8oracle "a/2.jpg" = .error () ∧
    Util.dictGet 1
      (App.recordResults []
        (c8tasks.map fun t2 =>
          App.ocr_single_card (fun _ => "") (c8oracle t2.1) t2.1 t2.2.1 t2.2.2)) =
      some (App.stem "a/2.jpg", none, "pdfA") ∧
    App.stem "a/2.jpg" = "2" := by
  have hnd : (c8tasks.map fun t => t.2.1).Nodup := by decide
  refine ⟨hnd, rfl, ?_, by decide⟩
  exact (C8_task_failure_absorbed (fun _ => "") c8oracle c8tasks [] hnd).2.2
    ("a/2.jpg", 1, "pdfA") (by decide) rfl

namespace App

/-- The card-index build at the end of GUI phase 1 (lines 783-798): walk the
`extracted_pdfs` dict in insertion order, list each unit's numbered jpg files
(written as `1.jpg .. count.jpg` by the extractor, sorted numerically), and
assign global indices sequentially. -/
def buildCardList (info : List (String × ℕ × Option String)) : List CardEntry :=
  (info.foldl (fun (acc : ℕ × List CardEntry) kv =>
    match kv.2.2 with
    | some path =>
      (List.range kv.2.1).foldl (fun acc2 k =>
        (acc2.1 + 1, acc2.2 ++ [(path ++ "/" ++ Util.natToDec (k + 1) ++ ".jpg", acc2.1, kv.1)]))
        acc
    | none => acc) (0, [])).2

/-- GUI phase 1 (lines 739-781) runs the per-PDF extraction on a process pool
and inserts into `pdf_card_info` in `as_completed` order; `completed` is that
completion order, a permutation of the submitted list. -/
def guiPhase1Info (seg : String → ℕ × Option String) (completed : List String) :
    List (String × ℕ × Option String) :=
  completed.map fun n => (n, (seg n).1, (seg n).2)

end App

namespace Headless

/-- Phase 1 of `cloud/process_batch_headless.py` (lines 480-494): iterate the
sorted PDF list sequentially, skipping units already in the (loaded)
summary dict and appending the rest in list order. -/
def phase1 (seg : String → ℕ × Option String) (pdfs : List String)
    (done : List (String × ℕ × Option String)) : List (String × ℕ × Option String) :=
  pdfs.foldl (fun info name =>
    if (info.map fun kv => kv.1).contains name then info
    else info ++ [(name, (seg name).1, (seg name).2)]) done

/-- The card-list build of `process_constituency` (lines 496-513). -/
def buildCardList (info : List (String × ℕ × Option String)) :
    List (String × ℕ × String) :=
  (info.foldl (fun (acc : ℕ × List (String × ℕ × String)) kv =>
    match kv.2.2 with
    | some path =>
      (List.range kv.2.1).foldl (fun acc2 k =>
        (acc2.1 + 1, acc2.2 ++ [(path ++ "/" ++ Util.natToDec (k + 1) ++ ".png", acc2.1, kv.1)]))
        acc
    | none => acc) (0, [])).2

/-- The name-level shadow of `phase1`'s dict-insertion order. -/
def foldNames (acc : List String) (todo : List String) : List String :=
  todo.foldl (fun a n => if a.contains n then a else a ++ [n]) acc

theorem phase1_eq_foldNames (seg : String → ℕ × Option String) :
    ∀ (todo : List String) (accNames : List String),
      phase1 seg todo (accNames.map fun n => (n, (seg n).1, (seg n).2)) =
        (foldNames accNames todo).map fun n => (n, (seg n).1, (seg n).2) := by
  intro todo
  induction todo with
  | nil => intro accNames; rfl
  | cons name rest ih =>
    intro accNames
    rw [phase1, List.foldl_cons, foldNames, List.foldl_cons]
    have hkeys : ((accNames.map fun n => (n, (seg n).1, (seg n).2)).map fun kv => kv.1) =
        accNames := by
      rw [List.map_map]
      exact List.map_id accNames
    rw [hkeys]
    by_cases hc : accNames.contains name
    · rw [if_pos hc, if_pos hc]
      exact ih accNames
    · rw [if_neg hc, if_neg hc]
      have : (accNames.map fun n => (n, (seg n).1, (seg n).2)) ++
          [(name, (seg name).1, (seg name).2)] =
          (accNames ++ [name]).map fun n => (n, (seg n).1, (seg n).2) := by
        rw [List.map_append, List.map_cons, List.map_nil]
      rw [this]
      exact ih (accNames ++ [name])

theorem foldNames_all_mem : ∀ (todo acc : List String),
    (∀ n ∈ todo, n ∈ acc) → foldNames acc todo = acc := by
  intro todo
  induction todo with
  | nil => intro acc _; rfl
  | cons name rest ih =>
    intro acc hall
    rw [foldNames, List.foldl_cons,
      if_pos (List.elem_iff.mpr (hall name (List.mem_cons_self name rest)))]
    exact ih acc fun n hn => hall n (List.mem_cons_of_mem name hn)

theorem foldNames_disjoint : ∀ (todo acc : List String), todo.Nodup →
    (∀ n ∈ todo, n ∉ acc) → foldNames acc todo = acc ++ todo := by
  intro todo
  induction todo with
  | nil => intro acc _ _; simp [foldNames]
  | cons name rest ih =>
    intro acc hnd hdisj
    rw [List.nodup_cons] at hnd
    rw [foldNames, List.foldl_cons,
      if_neg (fun hc => hdisj name (List.mem_cons_self name rest) (List.elem_iff.mp hc))]
    have := ih (acc ++ [name]) hnd.2 ?_
    · rw [foldNames] at this
      rw [this, List.append_assoc, List.singleton_append]
    · intro n hn
      rw [List.mem_append, List.mem_singleton]
      rintro (h1 | h2)
      · exact hdisj n (List.mem_cons_of_mem name hn) h1
      · exact hnd.1 (h2 ▸ hn)

end Headless

/-- The segmentation summary used in the C2 counterexample: every unit yields
one card, stored under a directory named after the unit. -/
def c2seg (n : String) : ℕ × Option String := (1, some n)

/-- C2 is false as stated for the GUI pipeline: `pdf_card_info` is filled in
`as_completed` (completion) order, and the card-index build walks that dict
order, so two passes over the same ordered SourceUnit list with different
pool completion orders assign different global indices to the same
(source unit, local number) pair. -/
theorem C2_deterministic_indices_counterexample :
    (["A", "B"] : List String).Perm ["B", "A"] ∧
    App.buildCardList (App.guiPhase1Info c2seg ["A", "B"]) =
      [("A/1.jpg", 0, "A"), ("B/1.jpg", 1, "B")] ∧
    App.buildCardList (App.guiPhase1Info c2seg ["B", "A"]) =
      [("B/1.jpg", 0, "B"), ("A/1.jpg", 1, "A")] ∧
    App.buildCardList (App.guiPhase1Info c2seg ["A", "B"]) ≠
      App.buildCardList (App.guiPhase1Info c2seg ["B", "A"]) := by
  refine ⟨by decide, by decide, by decide, by decide⟩

/-- C2 (amended): global index assignment is a pure function of the order in
which units enter the segmentation summary and of the per-unit numbering.  In
the sequential headless pipeline that order is the sorted SourceUnit list —
on a fresh run and equally when resuming from a checkpoint holding any prefix
of the units — so index assignment is deterministic and a re-run of
segmentation on an unfinished checkpoint reproduces the same (source unit,
local number) → global index map.  (In the parallel GUI pipeline the summary
order is the pool's completion order, so determinism in the claim's sense
fails there; the GUI reuses the recorded card list on resume rather than
re-deriving it, so already-recorded indices are still never contradicted.) -/
theorem C2_index_assignment_amended (seg : String → ℕ × Option String)
    (pdfs : List String) (k : ℕ) (hnd : pdfs.Nodup) :
    Headless.phase1 seg pdfs [] = (pdfs.map fun n => (n, (seg n).1, (seg n).2)) ∧
    Headless.phase1 seg pdfs ((pdfs.take k).map fun n => (n, (seg n).1, (seg n).2)) =
      Headless.phase1 seg pdfs [] ∧
    Headless.buildCardList (Headless.phase1 seg pdfs
        ((pdfs.take k).map fun n => (n, (seg n).1, (seg n).2))) =
      Headless.buildCardList (Headless.phase1 seg pdfs []) := by
  have hdisj : ∀ n ∈ pdfs.drop k, n ∉ pdfs.take k := by
    have hnd2 := hnd
    rw [← List.take_append_drop k pdfs, List.nodup_append] at hnd2
    exact fun n hn ht => hnd2.2.2 ht hn
  have hfold0 : Headless.foldNames [] pdfs = pdfs := by
    rw [Headless.foldNames_disjoint pdfs [] hnd (fun n _ => List.not_mem_nil n),
      List.nil_append]
  have h0 : Headless.phase1 seg pdfs [] = pdfs.map fun n => (n, (seg n).1, (seg n).2) := by
    have h := Headless.phase1_eq_foldNames seg pdfs []
    rw [List.map_nil] at h
    rw [h, hfold0]
  have hndDrop : (pdfs.drop k).Nodup := by
    have hnd2 := hnd
    rw [← List.take_append_drop k pdfs, List.nodup_append] at hnd2
    exact hnd2.2.1
  have hfoldk : Headless.foldNames (pdfs.take k) pdfs = pdfs := by
    have hsplit := List.take_append_drop k pdfs
    calc Headless.foldNames (pdfs.take k) pdfs
        = Headless.foldNames (pdfs.take k) (pdfs.take k ++ pdfs.drop k) := by rw [hsplit]
      _ = Headless.foldNames (Headless.foldNames (pdfs.take k) (pdfs.take k)) (pdfs.drop k) := by
          rw [Headless.foldNames, Headless.foldNames, Headless.foldNames, List.foldl_append]
      _ = Headless.foldNames (pdfs.take k) (pdfs.drop k) := by
          rw [Headless.foldNames_all_mem (pdfs.take k) (pdfs.take k) (fun n hn => hn)]
      _ = pdfs.take k ++ pdfs.drop k :=
          Headless.foldNames_disjoint (pdfs.drop k) (pdfs.take k) hndDrop hdisj
      _ = pdfs := hsplit
  have hk : Headless.phase1 seg pdfs ((pdfs.take k).map fun n => (n, (seg n).1, (seg n).2)) =
      Headless.phase1 seg pdfs [] := by
    rw [Headless.phase1_eq_foldNames seg pdfs (pdfs.take k), hfoldk, h0]
  exact ⟨h0, hk, by rw [hk]⟩

theorem C2_index_assignment_amended_witness :
    (["A", "B", "C"] : List String).Nodup ∧
    Headless.phase1 c2seg ["A", "B", "C"]
        ((["A", "B", "C"].take 2).map fun n => (n, (c2seg n).1, (c2seg n).2)) =
      Headless.phase1 c2seg ["A", "B", "C"] [] ∧
    Headless.buildCardList (Headless.phase1 c2seg ["A", "B", "C"] []) =
      [("A/1.png", 0, "A"), ("B/1.png", 1, "B"), ("C/1.png", 2, "C")] := by
  have hnd : (["A", "B", "C"] : List String).Nodup := by decide
  exact ⟨hnd, (C2_index_assignment_amended c2seg ["A", "B", "C"] 2 hnd).2.1, by decide⟩
